import Mathlib

/-!
Verification of the image-analysis core of an automated visual-regression
test system (Django application `autotest_ui`).

The development shallowly embeds the pure computational content of
`testsystem/cv_utils.py`, `testsystem/yolo_detector.py` and the per-element
classification step of `testsystem/tasks.py`.

Modelling conventions:
* Python floats are modelled as exact rationals (`ℚ`); float literals such as
  `0.15` are written as the rational they denote (`3/20`).
* `int(...)` (truncation toward zero) is `pyInt` below, built on `Int.tdiv`.
* Calls into OpenCV / numpy / the YOLO model that produce data the pipeline
  then processes (contours, per-cell standard deviations, raw detections,
  keypoint counts) are universally quantified oracle inputs: the embedding is
  faithful to everything the Python code computes from those values.
* Python's stable `sorted(..., key=confidence, reverse=True)` is modelled by
  `List.insertionSort` with the reflexive descending-confidence relation,
  which is extensionally the same stable sort.
-/

namespace AutotestUI

/-- Python `int(q)`: truncation toward zero of an exact rational. -/
def pyInt (q : ℚ) : ℤ := q.num.tdiv q.den

/-- Relative bounding box `{x, y, w, h}` (unit coordinates), as used by the
`bbox` dicts throughout `cv_utils.py`. -/
structure BBox where
  x : ℚ
  y : ℚ
  w : ℚ
  h : ℚ
deriving DecidableEq, Repr

/-- A detected-element dict: `{'bbox': ..., 'area': ..., 'confidence': ...}`,
optionally carrying a `'class_name'` key (present on YOLO detections, absent
on heuristic ones and dropped again by `_merge_overlapping_elements`). -/
structure Element where
  bbox : BBox
  area : ℚ
  confidence : ℚ
  class_name : Option String
deriving DecidableEq, Repr

/-- `cv_utils._bbox_abs`: absolute pixel corners `(x1, y1, x2, y2)` of a
relative bbox. -/
def bbox_abs (b : BBox) (W H : ℚ) : ℚ × ℚ × ℚ × ℚ :=
  (b.x * W, b.y * H, b.x * W + b.w * W, b.y * H + b.h * H)

/-- IoU computation of `cv_utils._remove_duplicate_elements` (lines 849-862):
`0.0` when the boxes do not overlap, otherwise
`intersection_area / max(union_area, 1)`. -/
def dupIou (e ex : Element) (W H : ℚ) : ℚ :=
  let x1 := e.bbox.x * W
  let y1 := e.bbox.y * H
  let x2 := x1 + e.bbox.w * W
  let y2 := y1 + e.bbox.h * H
  let ex1 := ex.bbox.x * W
  let ey1 := ex.bbox.y * H
  let ex2 := ex1 + ex.bbox.w * W
  let ey2 := ey1 + ex.bbox.h * H
  let ix1 := max x1 ex1
  let iy1 := max y1 ey1
  let ix2 := min x2 ex2
  let iy2 := min y2 ey2
  if ix2 > ix1 ∧ iy2 > iy1 then
    let inter := (ix2 - ix1) * (iy2 - iy1)
    let area1 := (x2 - x1) * (y2 - y1)
    let area2 := (ex2 - ex1) * (ey2 - ey1)
    inter / max (area1 + area2 - inter) 1
  else 0

/-- One step of the duplicate filter: keep `elem` unless it has IoU `> 0.35`
with an already accepted element. -/
def dedupeStep (W H : ℚ) (filtered : List Element) (elem : Element) : List Element :=
  if filtered.any (fun ex => dupIou elem ex W H > 7/20) then filtered
  else filtered ++ [elem]

/-- `cv_utils._remove_duplicate_elements`: sort by descending confidence
(stably) and drop every element overlapping an already accepted one with
IoU `> 0.35`. -/
def remove_duplicate_elements (elements : List Element) (W H : ℚ) : List Element :=
  if elements = [] then []
  else
    (List.insertionSort (fun a b => b.confidence ≤ a.confidence) elements).foldl
      (dedupeStep W H) []

/-- The pair-qualification test of `cv_utils._merge_overlapping_elements`
(lines 768-779): overlap exists and IoU `> 0.6` or the intersection covers
more than `0.8` of the smaller box. -/
def mergeQualifies (base other : Element) (W H : ℚ) : Bool :=
  let a := bbox_abs base.bbox W H
  let o := bbox_abs other.bbox W H
  let ix1 := max a.1 o.1
  let iy1 := max a.2.1 o.2.1
  let ix2 := min a.2.2.1 o.2.2.1
  let iy2 := min a.2.2.2 o.2.2.2
  if ix2 ≤ ix1 ∨ iy2 ≤ iy1 then false
  else
    let inter := (ix2 - ix1) * (iy2 - iy1)
    let areaB := (a.2.2.1 - a.1) * (a.2.2.2 - a.2.1)
    let areaO := (o.2.2.1 - o.1) * (o.2.2.2 - o.2.1)
    let iou := inter / max (areaB + areaO - inter) 1
    let containment := inter / max (min areaB areaO) 1
    decide (iou > 3/5 ∨ containment > 4/5)

/-- The union-merge of two qualifying elements (lines 780-795): bounding
union of the boxes, pixel area of the union, max of the confidences; the
`class_name` key is not carried over. -/
def mergeElems (base other : Element) (W H : ℚ) : Element :=
  let a := bbox_abs base.bbox W H
  let o := bbox_abs other.bbox W H
  let nx1 := min a.1 o.1
  let ny1 := min a.2.1 o.2.1
  let nx2 := max a.2.2.1 o.2.2.1
  let ny2 := max a.2.2.2 o.2.2.2
  { bbox := ⟨nx1 / W, ny1 / H, (nx2 - nx1) / W, (ny2 - ny1) / H⟩
    area := (nx2 - nx1) * (ny2 - ny1)
    confidence := max base.confidence other.confidence
    class_name := none }

/-- Inner loop of one merge pass: fold the current `base` over the still
pending elements, absorbing (and removing) every element that qualifies
against the up-to-date base, exactly as the `for j` loop with its `skip`
set does.  Returns the final base, the surviving pending elements in order,
and whether any merge happened. -/
def absorb (W H : ℚ) : Element → List Element → Element × List Element × Bool
  | b, [] => (b, [], false)
  | b, e :: rest =>
    if mergeQualifies b e W H then
      let r := absorb W H (mergeElems b e W H) rest
      (r.1, r.2.1, true)
    else
      let r := absorb W H b rest
      (r.1, e :: r.2.1, r.2.2)

/-- One full pass of the `while changed` loop (the `for i` loop), written
with explicit fuel; `fuel = length` always suffices because `absorb` never
lengthens the pending list. -/
def onePassF (W H : ℚ) : ℕ → List Element → List Element × Bool
  | _, [] => ([], false)
  | 0, l => (l, false)
  | fuel + 1, e :: rest =>
    let r := absorb W H e rest
    let s := onePassF W H fuel r.2.1
    (r.1 :: s.1, r.2.2 || s.2)

/-- One merge pass over a whole list. -/
def onePass (W H : ℚ) (l : List Element) : List Element × Bool :=
  onePassF W H l.length l

/-- The `while changed` loop, with fuel: every pass that reports a change
strictly shrinks the list, so `fuel = length` suffices. -/
def mergeLoopF (W H : ℚ) : ℕ → List Element → List Element
  | 0, l => l
  | fuel + 1, l =>
    let r := onePass W H l
    if r.2 then mergeLoopF W H fuel r.1 else r.1

/-- `cv_utils._merge_overlapping_elements`: repeatedly merge qualifying
pairs until a pass makes no change. -/
def merge_overlapping_elements (elements : List Element) (W H : ℚ) : List Element :=
  if elements.length < 2 then elements
  else mergeLoopF W H elements.length elements

/-- `cv_utils._merge_and_dedupe`: if the new list is empty return the base,
otherwise deduplicate and union-merge the concatenation. -/
def merge_and_dedupe (base new : List Element) (W H : ℚ) : List Element :=
  if new = [] then base
  else merge_overlapping_elements (remove_duplicate_elements (base ++ new) W H) W H

/-- The data `_contours_to_elements` reads off one raw contour: the results
of `cv2.contourArea` and `cv2.boundingRect` (oracle values of the OpenCV
calls), whether the contour object is missing or empty, and the standard
deviation of the grayscale region under the clamped rect together with
whether that region slice is empty. -/
structure Contour where
  empty : Bool
  area : ℚ
  rx : ℕ
  ry : ℕ
  rw : ℕ
  rh : ℕ
  roiStd : ℚ
  roiEmpty : Bool
deriving DecidableEq, Repr

/-- `MIN_ELEMENTS_TARGET = 12` in `cv_utils.py`. -/
def MIN_ELEMENTS_TARGET : ℕ := 12

/-- The body of the `for cnt in contours` loop of
`cv_utils._contours_to_elements`, with `gray_ref` supplied iff `useGray`.
`MIN_RELATIVE_AREA = 0.00002 = 1/50000`. -/
def contourToElement (w h total_area : ℕ) (useGray : Bool) (c : Contour) :
    Option Element :=
  if c.empty then none
  else
    let min_area : ℚ := max 30 (total_area / 50000 : ℕ)
    let max_area : ℚ := (total_area : ℚ) * 4/5
    if c.area < min_area ∨ c.area > max_area then none
    else if c.rw < 6 ∨ c.rh < 6 ∨ (c.rw : ℚ) > (w : ℚ) * 49/50 ∨
        (c.rh : ℚ) > (h : ℚ) * 49/50 then none
    else
      let x := min c.rx (w - 1)
      let y := min c.ry (h - 1)
      let ww := max 1 (min c.rw (w - x))
      let hh := max 1 (min c.rh (h - y))
      let bbox : BBox := ⟨(x : ℚ) / w, (y : ℚ) / h, (ww : ℚ) / w, (hh : ℚ) / h⟩
      let relative_area : ℚ := c.area / total_area
      if relative_area > 9/50 then none
      else if useGray ∧ c.roiEmpty then none
      else if useGray ∧ c.roiStd < 12 then none
      else some
        { bbox := bbox
          area := c.area
          confidence := min 1 (2/5 + relative_area * 12)
          class_name := none }

/-- `cv_utils._contours_to_elements`. -/
def contours_to_elements (contours : List Contour) (w h total_area : ℕ)
    (useGray : Bool) : List Element :=
  contours.filterMap (contourToElement w h total_area useGray)

/-- One grid cell of `cv_utils._grid_fallback_detection`; `std r c = none`
models an empty cell slice (the `cell.size == 0` continue), `some s` the
oracle value of `np.std(cell)`. -/
def gridCellElement (std : ℕ → ℕ → Option ℚ) (w h rows cols r c : ℕ) :
    Option Element :=
  match std r c with
  | none => none
  | some s =>
    if s < 18 then none
    else
      let x1 := c * w / cols
      let x2 := (c + 1) * w / cols
      let y1 := r * h / rows
      let y2 := (r + 1) * h / rows
      let shrink_x := 3 * (x2 - x1) / 20
      let shrink_y := 3 * (y2 - y1) / 20
      let x1s := min (x1 + shrink_x) (w - 1)
      let y1s := min (y1 + shrink_y) (h - 1)
      let x2s := max (min (x2 - shrink_x) w) (x1s + 5)
      let y2s := max (min (y2 - shrink_y) h) (y1s + 5)
      some
        { bbox := ⟨(x1s : ℚ) / w, (y1s : ℚ) / h,
                   ((x2s - x1s : ℕ) : ℚ) / w, ((y2s - y1s : ℕ) : ℚ) / h⟩
          area := ((x2s - x1s) * (y2s - y1s) : ℕ)
          confidence := min 1 (7/20 + s / 90)
          class_name := none }

/-- The three synthetic zones the source intends to add for a perfectly
flat screen (lines 643-653): one box per entry of `thirds = [1/3, 2/3]`. -/
def gridSyntheticZones (w h : ℕ) : List Element :=
  [1/3, 2/3].map fun tx =>
    { bbox := ⟨max 0 (tx - 3/20), 1/10, 3/10, 3/20⟩
      area := (3/10 : ℚ) * (3/20) * w * h
      confidence := 7/20
      class_name := none }

/-- `rows = 5 if h > 900 else 4` in `_grid_fallback_detection`. -/
def gridRows (h : ℕ) : ℕ := if h > 900 then 5 else 4

/-- `cols = 4 if w > 1200 else 3` in `_grid_fallback_detection`. -/
def gridCols (w : ℕ) : ℕ := if w > 1200 then 4 else 3

/-- `cv_utils._grid_fallback_detection`: keep high-variance grid cells,
shrunk by 15 percent per side; if none qualifies, fall back to the
synthetic zones. -/
def grid_fallback_detection (std : ℕ → ℕ → Option ℚ) (w h : ℕ) : List Element :=
  let elements :=
    (List.range (gridRows h)).flatMap fun r =>
      (List.range (gridCols w)).filterMap fun c =>
        gridCellElement std w h (gridRows h) (gridCols w) r c
  if elements = [] then gridSyntheticZones w h else elements

/-- The oracle inputs of the heuristic detector: the raw contours collected
from all the thresholding / morphology / edge / MSER sources, and the
per-cell standard deviations used by the grid fallback. -/
structure HeuristicOracle where
  contours : List Contour
  cellStd : ℕ → ℕ → Option ℚ

/-- `cv_utils._detect_elements_heuristic`: contour conversion (against the
CLAHE-enhanced grayscale reference), duplicate removal, union merging, and
the grid fallback when fewer than `MIN_ELEMENTS_TARGET` elements survive.
The OCR-assisted branch of the source is an empty no-op. -/
def detect_elements_heuristic (o : HeuristicOracle) (w h : ℕ) : List Element :=
  let total_area := max 1 (w * h)
  let elements := contours_to_elements o.contours w h total_area true
  let elements := remove_duplicate_elements elements w h
  let elements := merge_overlapping_elements elements w h
  if elements.length < MIN_ELEMENTS_TARGET then
    merge_and_dedupe elements (grid_fallback_detection o.cellStd w h) w h
  else elements

/-- A raw YOLO detection as read off `result.boxes` in
`yolo_detector.detect_elements_yolo`: the `xyxy` corners, the confidence
and the class name (oracle values of the model output). -/
structure RawDet where
  x1 : ℚ
  y1 : ℚ
  x2 : ℚ
  y2 : ℚ
  conf : ℚ
  cls : String
deriving DecidableEq, Repr

/-- The final coordinate clamping of `yolo_detector.detect_elements_yolo`
(lines 176-179), per axis: `x1 = max(0, min(x1, W-1))` followed by
`x2 = max(x1+1, min(x2, W))`. -/
def clampAxis (W x1 x2 : ℚ) : ℚ × ℚ :=
  let x1c := max 0 (min x1 (W - 1))
  (x1c, max (x1c + 1) (min x2 W))

/-- The per-box conversion of `yolo_detector.detect_elements_yolo`
(lines 134-198): the small/large offset correction, the final clamping to
the image, and the relative bbox. -/
def yoloBoxToElement (w h : ℕ) (d : RawDet) : Element :=
  let abs_w_raw := d.x2 - d.x1
  let abs_h_raw := d.y2 - d.y1
  let cx : ℚ :=
    if abs_w_raw < 50 ∨ abs_h_raw < 50 then
      (max 2 (min 4 (pyInt (abs_w_raw * 2/25))) : ℤ)
    else (max 1 (min 3 (pyInt (abs_w_raw * 3/200))) : ℤ)
  let cy : ℚ :=
    if abs_w_raw < 50 ∨ abs_h_raw < 50 then
      (max 2 (min 3 (pyInt (abs_h_raw * 3/50))) : ℤ)
    else (max 1 (min 2 (pyInt (abs_h_raw * 1/100))) : ℤ)
  let x1 := max 0 (min ((w : ℚ) - 1) (d.x1 + cx))
  let x2 := min (w : ℚ) (d.x2 + cx)
  let y1 := max 0 (min ((h : ℚ) - 1) (d.y1 + cy))
  let y2 := min (h : ℚ) (d.y2 + cy)
  let p := clampAxis w x1 x2
  let q := clampAxis h y1 y2
  { bbox := ⟨p.1 / w, q.1 / h, (p.2 - p.1) / w, (q.2 - q.1) / h⟩
    area := (p.2 - p.1) * (q.2 - q.1)
    confidence := d.conf
    class_name := some d.cls }

/-- `yolo_detector.detect_elements_yolo`: empty when the model is absent,
the image is empty, or the guarded prediction raises; otherwise the
converted raw boxes.  The whole body is inside `try/except`, so this
function never propagates an exception. -/
def detect_elements_yolo (modelLoaded : Bool) (predictErr : Bool)
    (raw : List RawDet) (w h : ℕ) : List Element :=
  if ¬modelLoaded then []
  else if w * h = 0 then []
  else if predictErr then []
  else raw.map (yoloBoxToElement w h)

/-- Configuration flags of `cv_utils.detect_elements_improved`. -/
structure DetectConfig where
  use_yolo : Bool
  yolo_conf_threshold : ℚ
  fallback_to_heuristic : Bool

/-- Oracle inputs of `detect_elements_improved`: availability flags of the
YOLO path, the raw model outputs of the primary and the lower-threshold
run, error flags for those runs, and the heuristic-path oracles. -/
structure DetectOracle where
  yoloImportOk : Bool
  yoloAvailable : Bool
  err1 : Bool
  err2 : Bool
  raw1 : List RawDet
  raw2 : List RawDet
  heur : HeuristicOracle

/-- `cv_utils.detect_elements_improved`: YOLO first (with a lower-threshold
retry and merge when fewer than `MIN_ELEMENTS_TARGET` boxes are found),
combined with or falling back to the heuristic detector.  The conversion
loop copies `bbox`, `area`, `confidence` and `class_name` (defaulting to
`'unknown'` when the key was dropped by merging). -/
def detect_elements_improved (o : DetectOracle) (cfg : DetectConfig)
    (w h : ℕ) : List Element :=
  let yoloResult : Option (List Element) :=
    if cfg.use_yolo ∧ o.yoloImportOk ∧ o.yoloAvailable then
      let y1 := detect_elements_yolo o.yoloAvailable o.err1 o.raw1 w h
      let y :=
        if y1.length < MIN_ELEMENTS_TARGET then
          merge_and_dedupe y1
            (detect_elements_yolo o.yoloAvailable o.err2 o.raw2 w h) w h
        else y1
      if y = [] then none
      else
        let converted := y.map fun e =>
          { e with class_name := some (e.class_name.getD "unknown") }
        if MIN_ELEMENTS_TARGET ≤ converted.length ∨ ¬cfg.fallback_to_heuristic
        then some converted
        else some (merge_and_dedupe converted (detect_elements_heuristic o.heur w h) w h)
    else none
  match yoloResult with
  | some r => r
  | none =>
    if cfg.fallback_to_heuristic then detect_elements_heuristic o.heur w h
    else []

/-- Oracle outcomes of the OpenCV primitives invoked by
`cv_utils.align_image`, over an abstract image type `α`.  Each `...Err`
flag records that the corresponding call raises; only the grayscale
conversion is inside the function's `try/except`. -/
structure AlignOracle (α : Type) where
  cvtErr : Bool
  detectErr : Bool
  kp1 : ℕ
  kp2 : ℕ
  des1 : Bool
  des2 : Bool
  matchErr : Bool
  matchCount : ℕ
  homographyErr : Bool
  homographySome : Bool
  warpErr : Bool
  warped : α

/-- `cv_utils.align_image`: ORB keypoints on both grayscale images, brute
force matching with the best 50 kept, RANSAC homography, and a warp.  The
`try` block covers only the two `cvtColor` calls (lines 80-85); the checks
`len(kp) < 6`, `len(matches) < 6` and `H is None` fall back to
`(actual, False)`; an exception anywhere later propagates, modelled as
`Except.error`. -/
def align_image {α : Type} (actual : α) (o : AlignOracle α) :
    Except Unit (α × Bool) :=
  if o.cvtErr then .ok (actual, false)
  else if o.detectErr then .error ()
  else if ¬o.des1 ∨ ¬o.des2 ∨ o.kp1 < 6 ∨ o.kp2 < 6 then .ok (actual, false)
  else if o.matchErr then .error ()
  else if min o.matchCount 50 < 6 then .ok (actual, false)
  else if o.homographyErr then .error ()
  else if ¬o.homographySome then .ok (actual, false)
  else if o.warpErr then .error ()
  else .ok (o.warped, true)

/-- A diff mask: pixel dimensions plus the pixel values (`0/255` grids in
the pipeline, but the embedding allows any values). -/
structure Mask where
  h : ℕ
  w : ℕ
  px : ℕ → ℕ → ℕ

/-- Clamp an index into `[0, n-1]` (replicate border handling). -/
def clampIdx (n i : ℕ) : ℕ := min i (n - 1)

/-- The 5x5 neighbourhood of a pixel, with replicated borders, as sampled
by `cv2.medianBlur(mask, 5)`. -/
def window5 (m : Mask) (i j : ℕ) : List ℕ :=
  (List.range 5).flatMap fun di =>
    (List.range 5).map fun dj =>
      m.px (clampIdx m.h (i + di - 2)) (clampIdx m.w (j + dj - 2))

/-- The 3x3 neighbourhood of a pixel (the `np.ones((3,3))` kernel). -/
def window3 (m : Mask) (i j : ℕ) : List ℕ :=
  (List.range 3).flatMap fun di =>
    (List.range 3).map fun dj =>
      m.px (clampIdx m.h (i + di - 1)) (clampIdx m.w (j + dj - 1))

/-- Median of a pixel sample: middle entry of the sorted values. -/
def listMedian (l : List ℕ) : ℕ :=
  (List.insertionSort (fun a b : ℕ => a ≤ b) l).getD (l.length / 2) 0

/-- `cv2.medianBlur(mask, 5)`. -/
def medianBlur5 (m : Mask) : Mask :=
  { m with px := fun i j => listMedian (window5 m i j) }

/-- `cv2.erode` with a 3x3 kernel: minimum over the neighbourhood. -/
def erode3 (m : Mask) : Mask :=
  { m with px := fun i j =>
      match window3 m i j with
      | [] => 0
      | v :: vs => vs.foldl min v }

/-- `cv2.dilate` with a 3x3 kernel: maximum over the neighbourhood. -/
def dilate3 (m : Mask) : Mask :=
  { m with px := fun i j => (window3 m i j).foldl max 0 }

/-- The mask smoothing of `cv_utils.analyze_elements_diff` (lines 690-693):
median blur, then morphological opening (erode + dilate), then one
dilation. -/
def smoothMask (m : Mask) : Mask :=
  dilate3 (dilate3 (erode3 (medianBlur5 m)))

/-- `np.count_nonzero` over the region `[y0, y1) x [x0, x1)` of a pixel
grid. -/
def countNonzero (px : ℕ → ℕ → ℕ) (y0 y1 x0 x1 : ℕ) : ℕ :=
  ((List.range (y1 - y0)).flatMap fun i =>
    (List.range (x1 - x0)).map fun j => px (y0 + i) (x0 + j)).countP
    (fun v => v ≠ 0)

/-- A stored `UIElement` row as read by `analyze_elements_diff`
(`element.bbox or {}` yields defaults when the bbox is missing). -/
structure DiagElement where
  elemId : ℕ
  name : String
  element_type : String
  bbox : Option BBox

/-- The clamped absolute x origin of an element on a `w`-wide mask
(line 703). -/
def elemX (w : ℕ) (b : Option BBox) : ℕ :=
  (max 0 (min (pyInt ((b.map BBox.x).getD 0 * w)) ((w : ℤ) - 1))).toNat

/-- Line 704. -/
def elemY (h : ℕ) (b : Option BBox) : ℕ :=
  (max 0 (min (pyInt ((b.map BBox.y).getD 0 * h)) ((h : ℤ) - 1))).toNat

/-- The clamped absolute pixel width of an element (line 705). -/
def elemW (w : ℕ) (b : Option BBox) : ℕ :=
  (max 1 (min (pyInt ((b.map BBox.w).getD 0 * w)) ((w : ℤ) - elemX w b))).toNat

/-- Line 706. -/
def elemH (h : ℕ) (b : Option BBox) : ℕ :=
  (max 1 (min (pyInt ((b.map BBox.h).getD 0 * h)) ((h : ℤ) - elemY h b))).toNat

/-- Per-element diagnostic record produced by `analyze_elements_diff`. -/
structure ElemInfo where
  elemId : ℕ
  name : String
  element_type : String
  bbox : Option BBox
  diff_ratio : ℚ
  status : String

/-- The body of the `for element in elements_iterable` loop of
`cv_utils.analyze_elements_diff` (lines 696-741): project the bbox to
pixels, pad by the shift tolerance, measure the nonzero fraction of the
smoothed mask inside the padded region, and classify against the
effective thresholds and area-scaled pixel floors. -/
def diagnoseOne (w h : ℕ) (px : ℕ → ℕ → ℕ) (pad : ℕ)
    (missing_threshold changed_threshold min_ratio : ℚ) (min_pixels : ℕ)
    (e : DiagElement) : ElemInfo :=
  let x := elemX w e.bbox
  let y := elemY h e.bbox
  let width := elemW w e.bbox
  let height := elemH h e.bbox
  let x0 := x - pad
  let y0 := y - pad
  let x1 := min w (x + width + pad)
  let y1 := min h (y + height + pad)
  let roi_area := max 1 ((y1 - y0) * (x1 - x0))
  let diff_pixels := countNonzero px y0 y1 x0 x1
  let mismatch_ratio : ℚ := (diff_pixels : ℚ) / roi_area
  let effective_changed := max changed_threshold min_ratio
  let effective_missing := max missing_threshold (effective_changed + 1/5)
  let min_pixels_missing := max min_pixels (pyInt ((width * height : ℕ) * (3/20 : ℚ))).toNat
  let min_pixels_shifted := max (min_pixels / 2) (pyInt ((width * height : ℕ) * (3/50 : ℚ))).toNat
  let status :=
    if mismatch_ratio ≥ effective_missing ∧ min_pixels_missing ≤ diff_pixels
    then "missing"
    else if mismatch_ratio ≥ effective_changed ∧ min_pixels_shifted ≤ diff_pixels
    then "shifted"
    else "ok"
  { elemId := e.elemId
    name := e.name
    element_type := e.element_type
    bbox := e.bbox
    diff_ratio := mismatch_ratio
    status := status }

/-- Result of `analyze_elements_diff`: the per-element records plus the
`missing`, `shifted` and `ok` counters. -/
structure AnalyzeResult where
  elements : List ElemInfo
  missing : ℕ
  shifted : ℕ
  ok : ℕ

/-- `cv_utils.analyze_elements_diff`: `None` masks yield the empty result
(lines 680-681); otherwise the mask is smoothed and each stored element of
the test case (here passed as a list) is diagnosed. -/
def analyze_elements_diff (elements : List DiagElement) (diff_mask : Option Mask)
    (missing_threshold changed_threshold min_ratio : ℚ) (min_pixels : ℕ)
    (max_shift_px : ℤ) : AnalyzeResult :=
  match diff_mask with
  | none => { elements := [], missing := 0, shifted := 0, ok := 0 }
  | some m =>
    let padded := smoothMask m
    let pad := (max 0 max_shift_px).toNat
    let infos := elements.map
      (diagnoseOne m.w m.h padded.px pad missing_threshold changed_threshold
        min_ratio min_pixels)
    { elements := infos
      missing := infos.countP (fun i => i.status = "missing")
      shifted := infos.countP (fun i => i.status = "shifted")
      ok := infos.countP (fun i => i.status = "ok") }

/-- Python `str.lower()` as applied to class names (`tasks.py` line 99),
modelled character-wise on the string's data (ASCII case folding; YOLO
class names are ASCII). -/
def asciiLower (s : String) : String :=
  ⟨s.data.map fun c => if c.isUpper then Char.ofNat (c.toNat + 32) else c⟩

/-- The `yolo_to_ui_type` vocabulary of `tasks.generate_test_from_screenshot`
(lines 89-97). -/
def yolo_to_ui_type (s : String) : Option String :=
  if s = "button" then some "button"
  else if s = "input" then some "input"
  else if s = "text" then some "label"
  else if s = "label" then some "label"
  else if s = "image" then some "image"
  else if s = "link" then some "link"
  else if s = "icon" then some "image"
  else none

/-- The final shape-based correction passes of
`tasks.generate_test_from_screenshot` (lines 124-152), applied to the
classified type and confidence. -/
def shapeCorrections (aspect_ratio relative_area : ℚ) (abs_h : ℕ)
    (is_small : Bool) (t : String) (c : ℚ) : String × ℚ :=
  let r1 : String × ℚ :=
    if t = "button" ∧ aspect_ratio > 5 ∧ abs_h < 40 then ("input", max c (3/4))
    else (t, c)
  let r2 : String × ℚ :=
    if (r1.1 = "label" ∨ r1.1 = "unknown") ∧ 7/10 ≤ aspect_ratio ∧
        aspect_ratio ≤ 13/10 ∧ is_small
    then ("button", max r1.2 (7/10))
    else r1
  if r2.1 = "unknown" then
    let ra : String × ℚ :=
      if aspect_ratio > 3/2 ∧ 1/2000 ≤ relative_area ∧ relative_area ≤ 3/20 then
        if aspect_ratio > 2 then ("label", 13/20)
        else if aspect_ratio > 3/2 then ("label", 3/5)
        else r2
      else r2
    if 1/2 ≤ aspect_ratio ∧ aspect_ratio ≤ 3 ∧ 1/2000 ≤ relative_area ∧
        relative_area ≤ 1/10
    then ("button", 3/5)
    else ra
  else r2

/-- `abs_w = max(1, int(bbox['w'] * w))` of
`tasks.generate_test_from_screenshot` (line 72). -/
def elemAbsW (w : ℕ) (e : Element) : ℕ := (max 1 (pyInt (e.bbox.w * w))).toNat

/-- `abs_h = max(1, int(bbox['h'] * h))` (line 73). -/
def elemAbsH (h : ℕ) (e : Element) : ℕ := (max 1 (pyInt (e.bbox.h * h))).toNat

/-- `aspect_ratio = abs_w / max(abs_h, 1)` (line 75). -/
def elemAspect (w h : ℕ) (e : Element) : ℚ :=
  (elemAbsW w e : ℚ) / ((max (elemAbsH h e) 1 : ℕ) : ℚ)

/-- `relative_area = area_px / total_pixels` (line 76). -/
def elemRelArea (w h : ℕ) (e : Element) : ℚ :=
  ((elemAbsW w e * elemAbsH h e : ℕ) : ℚ) / ((w * h : ℕ) : ℚ)

/-- The per-element classification of `tasks.generate_test_from_screenshot`
(lines 69-152): geometry of the detected bbox, the detector-supplied class
(mapped through `yolo_to_ui_type`), the ML / heuristic fallback (their
oracle predictions are `mlPred` / `heur`), and the final shape
corrections.  Returns the stored `(element_type, type_confidence)`. -/
def classifyDetectedElement (w h : ℕ) (mlTrained : Bool)
    (mlPred heur : String × ℚ) (e : Element) : String × ℚ :=
  let abs_h := elemAbsH h e
  let aspect_ratio : ℚ := elemAspect w h e
  let relative_area : ℚ := elemRelArea w h e
  let is_small := relative_area < 1/1000
  let initial : String × ℚ :=
    match e.class_name with
    | some cn =>
      if cn ≠ "unknown" then
        ((yolo_to_ui_type (asciiLower cn)).getD cn, e.confidence)
      else ("unknown", 0)
    | none => ("unknown", 0)
  let classified : String × ℚ :=
    if initial.1 = "unknown" ∨ initial.2 < 1/2 then
      if mlTrained then (if mlPred.2 > initial.2 then mlPred else initial)
      else (if heur.2 > initial.2 then heur else initial)
    else
      if initial.1 = "unknown" ∧ aspect_ratio > 3 ∧ abs_h < 50
      then ("input", 3/5)
      else initial
  shapeCorrections aspect_ratio relative_area abs_h is_small
    classified.1 classified.2

/-- Box invariant of the data model: unit-relative coordinates with
positive extent. -/
def bboxValid (e : Element) : Prop :=
  0 ≤ e.bbox.x ∧ 0 ≤ e.bbox.y ∧ e.bbox.x + e.bbox.w ≤ 1 ∧
  e.bbox.y + e.bbox.h ≤ 1 ∧ 0 < e.bbox.w ∧ 0 < e.bbox.h

instance : DecidablePred bboxValid := fun e => by
  unfold bboxValid; infer_instance

/-- Absolute-pixel containment of element `e`'s box region in `o`'s box
region, with `o` at least as confident. -/
def covers (W H : ℚ) (o e : Element) : Prop :=
  o.bbox.x * W ≤ e.bbox.x * W ∧ o.bbox.y * H ≤ e.bbox.y * H ∧
  e.bbox.x * W + e.bbox.w * W ≤ o.bbox.x * W + o.bbox.w * W ∧
  e.bbox.y * H + e.bbox.h * H ≤ o.bbox.y * H + o.bbox.h * H ∧
  e.confidence ≤ o.confidence

instance (W H : ℚ) (o e : Element) : Decidable (covers W H o e) := by
  unfold covers; infer_instance

/-! ## Helper lemmas about the union-merge loop -/

theorem absorb_len (W H : ℚ) (b : Element) (l : List Element) :
    ((absorb W H b l).2.1).length ≤ l.length := by
  induction l generalizing b with
  | nil => simp [absorb]
  | cons e rest ih =>
    simp only [absorb]
    by_cases hq : mergeQualifies b e W H
    · simpa [hq] using Nat.le_succ_of_le (ih (mergeElems b e W H))
    · simpa [hq] using ih b

theorem absorb_false (W H : ℚ) (b : Element) (l : List Element)
    (hch : (absorb W H b l).2.2 = false) : absorb W H b l = (b, l, false) := by
  induction l generalizing b with
  | nil => simp [absorb]
  | cons e rest ih =>
    by_cases hq : mergeQualifies b e W H
    · simp [absorb, hq] at hch
    · simp only [absorb, hq, if_false, Bool.false_eq_true] at hch ⊢
      rw [ih b hch]

theorem absorb_true_len (W H : ℚ) (b : Element) (l : List Element)
    (hch : (absorb W H b l).2.2 = true) :
    ((absorb W H b l).2.1).length < l.length := by
  induction l generalizing b with
  | nil => simp [absorb] at hch
  | cons e rest ih =>
    by_cases hq : mergeQualifies b e W H
    · simp only [absorb, hq, if_true]
      exact Nat.lt_succ_of_le (absorb_len W H (mergeElems b e W H) rest)
    · simp only [absorb, hq, if_false, Bool.false_eq_true] at hch ⊢
      simpa using ih b hch

theorem onePassF_len (W H : ℚ) (fuel : ℕ) (l : List Element) :
    ((onePassF W H fuel l).1).length ≤ l.length := by
  induction fuel generalizing l with
  | zero => cases l <;> simp [onePassF]
  | succ f ih =>
    cases l with
    | nil => simp [onePassF]
    | cons e rest =>
      simp only [onePassF, List.length_cons]
      exact Nat.succ_le_succ
        ((ih _).trans (absorb_len W H e rest))

theorem onePassF_false (W H : ℚ) (fuel : ℕ) (l : List Element)
    (hch : (onePassF W H fuel l).2 = false) : (onePassF W H fuel l).1 = l := by
  induction fuel generalizing l with
  | zero => cases l <;> simp [onePassF]
  | succ f ih =>
    cases l with
    | nil => simp [onePassF]
    | cons e rest =>
      simp only [onePassF, Bool.or_eq_false_iff] at hch ⊢
      obtain ⟨h1, h2⟩ := hch
      have ha := absorb_false W H e rest h1
      rw [ha]
      simp only [ha] at h2
      rw [ih rest h2]

theorem onePassF_true_len (W H : ℚ) (fuel : ℕ) (l : List Element)
    (hch : (onePassF W H fuel l).2 = true) :
    ((onePassF W H fuel l).1).length < l.length := by
  induction fuel generalizing l with
  | zero => cases l <;> simp [onePassF] at hch
  | succ f ih =>
    cases l with
    | nil => simp [onePassF] at hch
    | cons e rest =>
      simp only [onePassF, Bool.or_eq_true] at hch ⊢
      rcases hch with h1 | h2
      · have := absorb_true_len W H e rest h1
        have hlen := onePassF_len W H f (absorb W H e rest).2.1
        simp only [List.length_cons]
        exact Nat.succ_lt_succ (Nat.lt_of_le_of_lt hlen this)
      · have := ih _ h2
        have hlen := absorb_len W H e rest
        simp only [List.length_cons]
        exact Nat.succ_lt_succ (Nat.lt_of_lt_of_le this hlen)

theorem mergeLoopF_fix (W H : ℚ) (fuel : ℕ) (l : List Element)
    (hf : l.length ≤ fuel) :
    onePass W H (mergeLoopF W H fuel l) = (mergeLoopF W H fuel l, false) := by
  induction fuel generalizing l with
  | zero =>
    have : l = [] := List.length_eq_zero.mp (Nat.le_zero.mp hf)
    subst this
    simp [mergeLoopF, onePass, onePassF]
  | succ f ih =>
    simp only [mergeLoopF]
    rcases hch : (onePass W H l).2 with _ | _
    · simp only [Bool.false_eq_true, if_false]
      have h1 := onePassF_false W H l.length l hch
      have : (onePass W H l).1 = l := h1
      rw [this]
      exact Prod.ext this hch
    · simp only [if_true]
      exact ih _ (Nat.lt_succ_iff.mp
        (Nat.lt_of_lt_of_le (onePassF_true_len W H l.length l hch) hf))

theorem mergeLoopF_of_fix (W H : ℚ) (fuel : ℕ) (l : List Element)
    (hfix : onePass W H l = (l, false)) : mergeLoopF W H fuel l = l := by
  cases fuel with
  | zero => rfl
  | succ f => simp [mergeLoopF, hfix]

theorem merge_overlapping_fix (W H : ℚ) (l : List Element) :
    onePass W H (merge_overlapping_elements l W H) =
      (merge_overlapping_elements l W H, false) := by
  unfold merge_overlapping_elements
  by_cases hlen : l.length < 2
  · simp only [hlen, if_true]
    match l, hlen with
    | [], _ => simp [onePass, onePassF]
    | [e], _ => simp [onePass, onePassF, absorb]
  · simp only [hlen, if_false]
    exact mergeLoopF_fix W H l.length l le_rfl

/-! ## C5 -/

/-- C5: the union-merge step of deduplication is idempotent: for every
element list and positive image dimensions, applying
`_merge_overlapping_elements` to its own output returns that output
unchanged (the loop only stops once no pair qualifies for merging, so a
second run finds no pair either). -/
theorem merge_overlapping_idempotent (l : List Element) (W H : ℚ)
    (_hW : 0 < W) (_hH : 0 < H) :
    merge_overlapping_elements (merge_overlapping_elements l W H) W H =
      merge_overlapping_elements l W H := by
  have hfix := merge_overlapping_fix W H l
  set L := merge_overlapping_elements l W H with hL
  unfold merge_overlapping_elements
  by_cases hlen : L.length < 2
  · simp [hlen]
  · simp only [hlen, if_false]
    exact mergeLoopF_of_fix W H L.length L hfix

/-- Witness for C5 at a concrete three-element list on a 10 x 10 image. -/
theorem merge_overlapping_idempotent_witness :
    merge_overlapping_elements
        (merge_overlapping_elements
          [⟨⟨0, 0, 1/2, 1/2⟩, 10, 1/2, none⟩,
           ⟨⟨1/10, 1/10, 1/2, 1/2⟩, 10, 2/3, none⟩,
           ⟨⟨0, 0, 1/4, 1/4⟩, 4, 1/3, none⟩] 10 10) 10 10 =
      merge_overlapping_elements
        [⟨⟨0, 0, 1/2, 1/2⟩, 10, 1/2, none⟩,
         ⟨⟨1/10, 1/10, 1/2, 1/2⟩, 10, 2/3, none⟩,
         ⟨⟨0, 0, 1/4, 1/4⟩, 4, 1/3, none⟩] 10 10 :=
  merge_overlapping_idempotent _ 10 10 (by norm_num) (by norm_num)

/-! ## C9 -/

/-- C9: a `None` diff mask makes `analyze_elements_diff` return the empty
result with all-zero counters, for every element set and all threshold
parameters, without raising. -/
theorem analyze_elements_diff_none (elements : List DiagElement)
    (missing_threshold changed_threshold min_ratio : ℚ) (min_pixels : ℕ)
    (max_shift_px : ℤ) :
    analyze_elements_diff elements none missing_threshold changed_threshold
        min_ratio min_pixels max_shift_px =
      { elements := [], missing := 0, shifted := 0, ok := 0 } := rfl

/-! ## C2 -/

/-- C2 (code bug evidence): on a perfectly flat image (every grid cell's
standard deviation is `0 < 18`, here a 100 x 100 screen) the grid fallback
synthesizes only TWO fixed-position boxes — the `thirds = [1/3, 2/3]` loop
runs twice — although the comment above it and the claim promise three.
The result is still non-empty. -/
theorem grid_fallback_flat_two_boxes :
    (grid_fallback_detection (fun _ _ => some 0) 100 100).length = 2 ∧
      grid_fallback_detection (fun _ _ => some 0) 100 100 ≠ [] := by
  constructor
  · rfl
  · decide

/-! ## Non-emptiness lemmas and C1 -/

theorem dedupeStep_ne_nil (W H : ℚ) (acc : List Element) (e : Element) :
    dedupeStep W H acc e ≠ [] := by
  unfold dedupeStep
  split
  · rename_i hc
    cases acc with
    | nil => simp at hc
    | cons a t => simp
  · simp

theorem foldl_dedupeStep_ne_nil (W H : ℚ) (l : List Element)
    (acc : List Element) (h : acc ≠ [] ∨ l ≠ []) :
    l.foldl (dedupeStep W H) acc ≠ [] := by
  induction l generalizing acc with
  | nil => simpa using h.resolve_right (by simp)
  | cons e rest ih =>
    simp only [List.foldl_cons]
    exact ih _ (Or.inl (dedupeStep_ne_nil W H acc e))

theorem remove_duplicate_ne_nil (l : List Element) (W H : ℚ) (h : l ≠ []) :
    remove_duplicate_elements l W H ≠ [] := by
  unfold remove_duplicate_elements
  rw [if_neg h]
  refine foldl_dedupeStep_ne_nil W H _ [] (Or.inr ?_)
  intro hs
  exact h (List.length_eq_zero.mp
    (by rw [← List.length_insertionSort (fun a b => b.confidence ≤ a.confidence) l, hs]
        rfl))

theorem mem_dedupeStep (W H : ℚ) {acc : List Element} {e y : Element}
    (h : y ∈ dedupeStep W H acc e) : y ∈ acc ∨ y = e := by
  unfold dedupeStep at h
  split at h
  · exact Or.inl h
  · rcases List.mem_append.mp h with h1 | h2
    · exact Or.inl h1
    · exact Or.inr (List.mem_singleton.mp h2)

theorem foldl_dedupeStep_subset (W H : ℚ) (l : List Element)
    (acc : List Element) {y : Element}
    (h : y ∈ l.foldl (dedupeStep W H) acc) : y ∈ acc ∨ y ∈ l := by
  induction l generalizing acc with
  | nil => exact Or.inl h
  | cons e rest ih =>
    simp only [List.foldl_cons] at h
    rcases ih _ h with hacc | hrest
    · rcases mem_dedupeStep W H hacc with h1 | h2
      · exact Or.inl h1
      · exact Or.inr (h2 ▸ List.mem_cons_self _ _)
    · exact Or.inr (List.mem_cons_of_mem _ hrest)

theorem remove_duplicate_subset (l : List Element) (W H : ℚ) {y : Element}
    (h : y ∈ remove_duplicate_elements l W H) : y ∈ l := by
  unfold remove_duplicate_elements at h
  split at h
  · simp at h
  · rcases foldl_dedupeStep_subset W H _ [] h with h1 | h2
    · simp at h1
    · exact (List.mem_insertionSort _).mp h2

theorem onePassF_ne_nil (W H : ℚ) (fuel : ℕ) (l : List Element)
    (h : l ≠ []) : (onePassF W H fuel l).1 ≠ [] := by
  cases fuel with
  | zero => cases l with
    | nil => exact absurd rfl h
    | cons e rest => simp [onePassF]
  | succ f => cases l with
    | nil => exact absurd rfl h
    | cons e rest => simp [onePassF]

theorem mergeLoopF_ne_nil (W H : ℚ) (fuel : ℕ) (l : List Element)
    (h : l ≠ []) : mergeLoopF W H fuel l ≠ [] := by
  induction fuel generalizing l with
  | zero => exact h
  | succ f ih =>
    simp only [mergeLoopF]
    split
    · exact ih _ (onePassF_ne_nil W H l.length l h)
    · exact onePassF_ne_nil W H l.length l h

theorem merge_overlapping_ne_nil (l : List Element) (W H : ℚ) (h : l ≠ []) :
    merge_overlapping_elements l W H ≠ [] := by
  unfold merge_overlapping_elements
  split
  · exact h
  · exact mergeLoopF_ne_nil W H l.length l h

theorem merge_and_dedupe_ne_nil (base new : List Element) (W H : ℚ)
    (h : base ++ new ≠ []) : merge_and_dedupe base new W H ≠ [] := by
  unfold merge_and_dedupe
  split
  · rename_i hn
    subst hn
    simpa using h
  · exact merge_overlapping_ne_nil _ W H
      (remove_duplicate_ne_nil _ W H h)

theorem grid_fallback_ne_nil (std : ℕ → ℕ → Option ℚ) (w h : ℕ) :
    grid_fallback_detection std w h ≠ [] := by
  have key : ∀ l : List Element,
      (if l = [] then gridSyntheticZones w h else l) ≠ [] := by
    intro l
    split
    · simp [gridSyntheticZones]
    · assumption
  unfold grid_fallback_detection
  exact key _

theorem detect_heuristic_ne_nil (o : HeuristicOracle) (w h : ℕ) :
    detect_elements_heuristic o w h ≠ [] := by
  have key : ∀ l : List Element,
      (if l.length < MIN_ELEMENTS_TARGET then
        merge_and_dedupe l (grid_fallback_detection o.cellStd w h) (w : ℚ) (h : ℚ)
      else l) ≠ [] := by
    intro l
    split
    · refine merge_and_dedupe_ne_nil _ _ _ _ ?_
      intro hnil
      exact grid_fallback_ne_nil o.cellStd w h (List.append_eq_nil.mp hnil).2
    · rename_i hlen
      intro hnil
      rw [hnil] at hlen
      exact hlen (by simp [MIN_ELEMENTS_TARGET])
  unfold detect_elements_heuristic
  exact key _

/-- C1 (counterexample): with `use_yolo = False` and
`fallback_to_heuristic = False`, `detect_elements_improved` returns the
empty list for every input, contradicting the claim that it is non-empty
for every setting of the configuration flags. -/
theorem detect_elements_improved_empty :
    detect_elements_improved
        ⟨false, false, false, false, [], [], ⟨[], fun _ _ => none⟩⟩
        ⟨false, 3/20, false⟩ 100 100 = [] := rfl

/-- C1 (amended): whenever `fallback_to_heuristic` is true (its default,
and the setting used by the production caller), `detect_elements_improved`
returns a non-empty list for every input image and every YOLO
configuration — even for a uniformly colored input, thanks to the grid
fallback's synthetic boxes.  With `fallback_to_heuristic = False` and no
YOLO detections the function returns the empty list instead. -/
theorem detect_elements_improved_ne_nil (o : DetectOracle) (cfg : DetectConfig)
    (w h : ℕ) (hfb : cfg.fallback_to_heuristic = true) :
    detect_elements_improved o cfg w h ≠ [] := by
  unfold detect_elements_improved
  by_cases hg : cfg.use_yolo ∧ o.yoloImportOk ∧ o.yoloAvailable
  · rw [if_pos hg]
    set y := if (detect_elements_yolo o.yoloAvailable o.err1 o.raw1 w h).length <
        MIN_ELEMENTS_TARGET then
        merge_and_dedupe (detect_elements_yolo o.yoloAvailable o.err1 o.raw1 w h)
          (detect_elements_yolo o.yoloAvailable o.err2 o.raw2 w h) w h
      else detect_elements_yolo o.yoloAvailable o.err1 o.raw1 w h with hy
    by_cases hynil : y = []
    · rw [if_pos hynil]
      show (if cfg.fallback_to_heuristic then
        detect_elements_heuristic o.heur w h else []) ≠ []
      rw [hfb, if_pos rfl]
      exact detect_heuristic_ne_nil o.heur w h
    · rw [if_neg hynil]
      by_cases hc : MIN_ELEMENTS_TARGET ≤
          (y.map fun e =>
            { e with class_name := some (e.class_name.getD "unknown") }).length ∨
          ¬cfg.fallback_to_heuristic
      · rw [if_pos hc]
        intro hnil
        exact hynil (List.map_eq_nil_iff.mp hnil)
      · rw [if_neg hc]
        refine merge_and_dedupe_ne_nil _ _ _ _ ?_
        intro hnil
        exact hynil (List.map_eq_nil_iff.mp (List.append_eq_nil.mp hnil).1)
  · rw [if_neg hg]
    show (if cfg.fallback_to_heuristic then
      detect_elements_heuristic o.heur w h else []) ≠ []
    rw [hfb, if_pos rfl]
    exact detect_heuristic_ne_nil o.heur w h

/-- Witness for C1: the default flag setting on a 100 x 100 image with no
YOLO model and no contours still produces elements. -/
theorem detect_elements_improved_ne_nil_witness :
    detect_elements_improved
        ⟨false, false, false, false, [], [], ⟨[], fun _ _ => none⟩⟩
        ⟨true, 3/20, true⟩ 100 100 ≠ [] :=
  detect_elements_improved_ne_nil _ _ 100 100 rfl

/-! ## Box-invariant lemmas (C4) -/

theorem mergeElems_bboxValid {b o : Element} {W H : ℚ} (hW : 0 < W)
    (hH : 0 < H) (hb : bboxValid b) (ho : bboxValid o) :
    bboxValid (mergeElems b o W H) := by
  obtain ⟨hbx, hby, hbxw, hbyh, hbw, hbh⟩ := hb
  obtain ⟨hox, hoy, hoxw, hoyh, how, hoh⟩ := ho
  have hxw : b.bbox.x * W + b.bbox.w * W ≤ W := by nlinarith
  have hxw2 : o.bbox.x * W + o.bbox.w * W ≤ W := by nlinarith
  have hyh : b.bbox.y * H + b.bbox.h * H ≤ H := by nlinarith
  have hyh2 : o.bbox.y * H + o.bbox.h * H ≤ H := by nlinarith
  unfold bboxValid mergeElems bbox_abs
  dsimp only
  refine ⟨?_, ?_, ?_, ?_, ?_, ?_⟩
  · exact div_nonneg (le_min (by nlinarith) (by nlinarith)) hW.le
  · exact div_nonneg (le_min (by nlinarith) (by nlinarith)) hH.le
  · rw [div_add_div_same, show ∀ a b : ℚ, a + (b - a) = b from fun a b => by ring]
    exact (div_le_one hW).mpr (max_le hxw hxw2)
  · rw [div_add_div_same, show ∀ a b : ℚ, a + (b - a) = b from fun a b => by ring]
    exact (div_le_one hH).mpr (max_le hyh hyh2)
  · refine div_pos (sub_pos.mpr ?_) hW
    calc min (b.bbox.x * W) (o.bbox.x * W) ≤ b.bbox.x * W := min_le_left _ _
      _ < b.bbox.x * W + b.bbox.w * W := by nlinarith
      _ ≤ _ := le_max_left _ _
  · refine div_pos (sub_pos.mpr ?_) hH
    calc min (b.bbox.y * H) (o.bbox.y * H) ≤ b.bbox.y * H := min_le_left _ _
      _ < b.bbox.y * H + b.bbox.h * H := by nlinarith
      _ ≤ _ := le_max_left _ _

theorem absorb_pres (W H : ℚ) (P : Element → Prop)
    (hP : ∀ a b, P a → P b → P (mergeElems a b W H)) (b : Element)
    (l : List Element) (hb : P b) (hl : ∀ x ∈ l, P x) :
    P (absorb W H b l).1 ∧ ∀ y ∈ (absorb W H b l).2.1, P y := by
  induction l generalizing b with
  | nil => exact ⟨hb, by simp [absorb]⟩
  | cons e rest ih =>
    have he := hl e (List.mem_cons_self _ _)
    have hrest : ∀ x ∈ rest, P x := fun x hx => hl x (List.mem_cons_of_mem _ hx)
    by_cases hq : mergeQualifies b e W H
    · simp only [absorb, hq, if_true]
      exact ih (mergeElems b e W H) (hP b e hb he) hrest
    · simp only [absorb, hq, if_false]
      obtain ⟨ih1, ih2⟩ := ih b hb hrest
      refine ⟨ih1, ?_⟩
      intro y hy
      rcases List.mem_cons.mp hy with rfl | hy
      · exact he
      · exact ih2 y hy

theorem onePassF_pres (W H : ℚ) (P : Element → Prop)
    (hP : ∀ a b, P a → P b → P (mergeElems a b W H)) (fuel : ℕ)
    (l : List Element) (hl : ∀ x ∈ l, P x) :
    ∀ y ∈ (onePassF W H fuel l).1, P y := by
  induction fuel generalizing l with
  | zero => cases l with
    | nil => simp [onePassF]
    | cons e rest => simpa [onePassF] using hl
  | succ f ih =>
    cases l with
    | nil => simp [onePassF]
    | cons e rest =>
      have he := hl e (List.mem_cons_self _ _)
      have hrest : ∀ x ∈ rest, P x := fun x hx => hl x (List.mem_cons_of_mem _ hx)
      obtain ⟨h1, h2⟩ := absorb_pres W H P hP e rest he hrest
      intro y hy
      simp only [onePassF, List.mem_cons] at hy
      rcases hy with rfl | hy
      · exact h1
      · exact ih (absorb W H e rest).2.1 h2 y hy

theorem mergeLoopF_pres (W H : ℚ) (P : Element → Prop)
    (hP : ∀ a b, P a → P b → P (mergeElems a b W H)) (fuel : ℕ)
    (l : List Element) (hl : ∀ x ∈ l, P x) :
    ∀ y ∈ mergeLoopF W H fuel l, P y := by
  induction fuel generalizing l with
  | zero => exact hl
  | succ f ih =>
    simp only [mergeLoopF]
    split
    · exact ih (onePass W H l).1 (onePassF_pres W H P hP l.length l hl)
    · exact onePassF_pres W H P hP l.length l hl

theorem merge_overlapping_pres (W H : ℚ) (P : Element → Prop)
    (hP : ∀ a b, P a → P b → P (mergeElems a b W H)) (l : List Element)
    (hl : ∀ x ∈ l, P x) : ∀ y ∈ merge_overlapping_elements l W H, P y := by
  unfold merge_overlapping_elements
  split
  · exact hl
  · exact mergeLoopF_pres W H P hP l.length l hl

theorem merge_and_dedupe_pres (W H : ℚ) (P : Element → Prop)
    (hP : ∀ a b, P a → P b → P (mergeElems a b W H)) (base new : List Element)
    (hbase : ∀ x ∈ base, P x) (hnew : ∀ x ∈ new, P x) :
    ∀ y ∈ merge_and_dedupe base new W H, P y := by
  unfold merge_and_dedupe
  split
  · exact hbase
  · refine merge_overlapping_pres W H P hP _ ?_
    intro x hx
    rcases List.mem_append.mp (remove_duplicate_subset _ W H hx) with h1 | h2
    · exact hbase x h1
    · exact hnew x h2

theorem contourToElement_bboxValid {w h total_area : ℕ} {useGray : Bool}
    {c : Contour} {e : Element} (hw : 1 ≤ w) (hh : 1 ≤ h)
    (he : contourToElement w h total_area useGray c = some e) : bboxValid e := by
  unfold contourToElement at he
  dsimp only at he
  split_ifs at he
  all_goals try exact Option.noConfusion he
  injection he with he
  subst he
  set x := min c.rx (w - 1) with hx
  set y := min c.ry (h - 1) with hy
  set ww := max 1 (min c.rw (w - x)) with hww
  set hh2 := max 1 (min c.rh (h - y)) with hhh
  have hxw : x + ww ≤ w := by omega
  have hyh : y + hh2 ≤ h := by omega
  have hw0 : (0 : ℚ) < w := by exact_mod_cast hw
  have hh0 : (0 : ℚ) < h := by exact_mod_cast hh
  refine ⟨?_, ?_, ?_, ?_, ?_, ?_⟩
  · exact div_nonneg (Nat.cast_nonneg x) hw0.le
  · exact div_nonneg (Nat.cast_nonneg y) hh0.le
  · rw [div_add_div_same]
    refine (div_le_one hw0).mpr ?_
    exact_mod_cast hxw
  · rw [div_add_div_same]
    refine (div_le_one hh0).mpr ?_
    exact_mod_cast hyh
  · refine div_pos ?_ hw0
    exact_mod_cast Nat.lt_of_lt_of_le Nat.zero_lt_one (le_max_left 1 _)
  · refine div_pos ?_ hh0
    exact_mod_cast Nat.lt_of_lt_of_le Nat.zero_lt_one (le_max_left 1 _)

theorem contours_to_elements_bboxValid (contours : List Contour)
    (w h total_area : ℕ) (useGray : Bool) (hw : 1 ≤ w) (hh : 1 ≤ h) :
    ∀ e ∈ contours_to_elements contours w h total_area useGray, bboxValid e := by
  intro e he
  obtain ⟨c, _, hc⟩ := List.mem_filterMap.mp he
  exact contourToElement_bboxValid hw hh hc

theorem gridShrink3 (n c : ℕ) (hc : c < 3) (hn : 18 ≤ n) :
    min (c * n / 3 + 3 * ((c + 1) * n / 3 - c * n / 3) / 20) (n - 1) + 5 ≤ n := by
  interval_cases c <;> omega

theorem gridShrink4 (n c : ℕ) (hc : c < 4) (hn : 24 ≤ n) :
    min (c * n / 4 + 3 * ((c + 1) * n / 4 - c * n / 4) / 20) (n - 1) + 5 ≤ n := by
  interval_cases c <;> omega

theorem gridShrink5 (n c : ℕ) (hc : c < 5) (hn : 30 ≤ n) :
    min (c * n / 5 + 3 * ((c + 1) * n / 5 - c * n / 5) / 20) (n - 1) + 5 ≤ n := by
  interval_cases c <;> omega

theorem gridCellElement_bboxValid {std : ℕ → ℕ → Option ℚ}
    {w h rows cols r c : ℕ} {e : Element}
    (he : gridCellElement std w h rows cols r c = some e)
    (hx : min (c * w / cols + 3 * ((c + 1) * w / cols - c * w / cols) / 20)
        (w - 1) + 5 ≤ w)
    (hy : min (r * h / rows + 3 * ((r + 1) * h / rows - r * h / rows) / 20)
        (h - 1) + 5 ≤ h) : bboxValid e := by
  unfold gridCellElement at he
  rcases hstd : std r c with _ | s
  · rw [hstd] at he; exact Option.noConfusion he
  · rw [hstd] at he
    dsimp only at he
    split_ifs at he
    injection he with he
    subst he
    generalize c * w / cols = a1 at hx ⊢
    generalize (c + 1) * w / cols = a2 at hx ⊢
    generalize r * h / rows = b1 at hy ⊢
    generalize (r + 1) * h / rows = b2 at hy ⊢
    set x1s := min (a1 + 3 * (a2 - a1) / 20) (w - 1) with hx1s
    set y1s := min (b1 + 3 * (b2 - b1) / 20) (h - 1) with hy1s
    set x2s := max (min (a2 - 3 * (a2 - a1) / 20) w) (x1s + 5) with hx2s
    set y2s := max (min (b2 - 3 * (b2 - b1) / 20) h) (y1s + 5) with hy2s
    have hxw : x2s ≤ w := by omega
    have hyh : y2s ≤ h := by omega
    have hx12 : x1s + 5 ≤ x2s := by omega
    have hy12 : y1s + 5 ≤ y2s := by omega
    have hw0 : (0 : ℚ) < w := by exact_mod_cast (by omega : 0 < w)
    have hh0 : (0 : ℚ) < h := by exact_mod_cast (by omega : 0 < h)
    refine ⟨?_, ?_, ?_, ?_, ?_, ?_⟩
    · exact div_nonneg (Nat.cast_nonneg _) hw0.le
    · exact div_nonneg (Nat.cast_nonneg _) hh0.le
    · rw [div_add_div_same]
      refine (div_le_one hw0).mpr ?_
      exact_mod_cast (by omega : x1s + (x2s - x1s) ≤ w)
    · rw [div_add_div_same]
      refine (div_le_one hh0).mpr ?_
      exact_mod_cast (by omega : y1s + (y2s - y1s) ≤ h)
    · refine div_pos ?_ hw0
      exact_mod_cast (by omega : 0 < x2s - x1s)
    · refine div_pos ?_ hh0
      exact_mod_cast (by omega : 0 < y2s - y1s)

theorem gridSyntheticZones_bboxValid (w h : ℕ) :
    ∀ e ∈ gridSyntheticZones w h, bboxValid e := by
  intro e he
  unfold gridSyntheticZones at he
  simp only [List.map_cons, List.map_nil, List.mem_cons, List.mem_singleton] at he
  rcases he with rfl | rfl | he
  · exact ⟨by norm_num [max_def], by norm_num, by norm_num [max_def],
      by norm_num, by norm_num, by norm_num⟩
  · exact ⟨by norm_num [max_def], by norm_num, by norm_num [max_def],
      by norm_num, by norm_num, by norm_num⟩
  · exact absurd he (by simp)

theorem grid_fallback_bboxValid (std : ℕ → ℕ → Option ℚ) (w h : ℕ)
    (hw : 18 ≤ w) (hh : 24 ≤ h) :
    ∀ e ∈ grid_fallback_detection std w h, bboxValid e := by
  intro e he
  unfold grid_fallback_detection at he
  dsimp only at he
  split at he
  · exact gridSyntheticZones_bboxValid w h e he
  · obtain ⟨r, hr, he2⟩ := List.mem_flatMap.mp he
    obtain ⟨c, hc, he3⟩ := List.mem_filterMap.mp he2
    rw [List.mem_range] at hr hc
    refine gridCellElement_bboxValid he3 ?_ ?_
    · by_cases h12 : w > 1200
      · rw [gridCols, if_pos h12] at hc ⊢
        exact gridShrink4 w c hc (by omega)
      · rw [gridCols, if_neg h12] at hc ⊢
        exact gridShrink3 w c hc hw
    · by_cases h9 : h > 900
      · rw [gridRows, if_pos h9] at hr ⊢
        exact gridShrink5 h r hr (by omega)
      · rw [gridRows, if_neg h9] at hr ⊢
        exact gridShrink4 h r hr hh

theorem clampAxis_spec (W x1 x2 : ℚ) (hW : 1 ≤ W) :
    0 ≤ (clampAxis W x1 x2).1 ∧ (clampAxis W x1 x2).1 + 1 ≤ (clampAxis W x1 x2).2 ∧
      (clampAxis W x1 x2).2 ≤ W := by
  unfold clampAxis
  dsimp only
  have h1 : max 0 (min x1 (W - 1)) ≤ W - 1 :=
    max_le (by linarith) (min_le_right _ _)
  exact ⟨le_max_left 0 _, le_max_left _ _,
    max_le (by linarith) (min_le_right _ _)⟩

theorem clampedBox_valid (w h : ℕ) (x1 x2 y1 y2 conf : ℚ) (cls : Option String)
    (hw : 1 ≤ w) (hh : 1 ≤ h) :
    bboxValid
      { bbox := ⟨(clampAxis w x1 x2).1 / w, (clampAxis h y1 y2).1 / h,
            ((clampAxis w x1 x2).2 - (clampAxis w x1 x2).1) / w,
            ((clampAxis h y1 y2).2 - (clampAxis h y1 y2).1) / h⟩
        area := ((clampAxis w x1 x2).2 - (clampAxis w x1 x2).1) *
          ((clampAxis h y1 y2).2 - (clampAxis h y1 y2).1)
        confidence := conf
        class_name := cls } := by
  have hw1 : (1 : ℚ) ≤ w := by exact_mod_cast hw
  have hh1 : (1 : ℚ) ≤ h := by exact_mod_cast hh
  have hw0 : (0 : ℚ) < w := by linarith
  have hh0 : (0 : ℚ) < h := by linarith
  obtain ⟨ha1, ha2, ha3⟩ := clampAxis_spec (w : ℚ) x1 x2 hw1
  obtain ⟨hb1, hb2, hb3⟩ := clampAxis_spec (h : ℚ) y1 y2 hh1
  refine ⟨div_nonneg ha1 hw0.le, div_nonneg hb1 hh0.le, ?_, ?_, ?_, ?_⟩
  · rw [div_add_div_same, show ∀ a b : ℚ, a + (b - a) = b from fun a b => by ring]
    exact (div_le_one hw0).mpr ha3
  · rw [div_add_div_same, show ∀ a b : ℚ, a + (b - a) = b from fun a b => by ring]
    exact (div_le_one hh0).mpr hb3
  · exact div_pos (by linarith) hw0
  · exact div_pos (by linarith) hh0

theorem yoloBoxToElement_bboxValid (w h : ℕ) (d : RawDet) (hw : 1 ≤ w)
    (hh : 1 ≤ h) : bboxValid (yoloBoxToElement w h d) := by
  unfold yoloBoxToElement
  exact clampedBox_valid w h _ _ _ _ _ _ hw hh

theorem detect_elements_yolo_bboxValid (modelLoaded predictErr : Bool)
    (raw : List RawDet) (w h : ℕ) (hw : 1 ≤ w) (hh : 1 ≤ h) :
    ∀ e ∈ detect_elements_yolo modelLoaded predictErr raw w h, bboxValid e := by
  intro e he
  unfold detect_elements_yolo at he
  split_ifs at he <;>
    first
      | exact absurd he (List.not_mem_nil e)
      | (obtain ⟨d, _, hd⟩ := List.mem_map.mp he
         exact hd ▸ yoloBoxToElement_bboxValid w h d hw hh)

theorem detect_heuristic_bboxValid (o : HeuristicOracle) (w h : ℕ)
    (hw : 18 ≤ w) (hh : 24 ≤ h) :
    ∀ e ∈ detect_elements_heuristic o w h, bboxValid e := by
  have hw1 : 1 ≤ w := by omega
  have hh1 : 1 ≤ h := by omega
  have hW0 : (0 : ℚ) < w := by exact_mod_cast Nat.lt_of_lt_of_le Nat.zero_lt_one hw1
  have hH0 : (0 : ℚ) < h := by exact_mod_cast Nat.lt_of_lt_of_le Nat.zero_lt_one hh1
  have hmerge : ∀ a b, bboxValid a → bboxValid b →
      bboxValid (mergeElems a b (w : ℚ) (h : ℚ)) :=
    fun a b ha hb => mergeElems_bboxValid hW0 hH0 ha hb
  have key : ∀ l : List Element, (∀ x ∈ l, bboxValid x) →
      ∀ e ∈ (if l.length < MIN_ELEMENTS_TARGET then
        merge_and_dedupe l (grid_fallback_detection o.cellStd w h) (w : ℚ) (h : ℚ)
      else l), bboxValid e := by
    intro l hl e he
    by_cases hc : l.length < MIN_ELEMENTS_TARGET
    · rw [if_pos hc] at he
      exact merge_and_dedupe_pres _ _ _ hmerge _ _ hl
        (grid_fallback_bboxValid o.cellStd w h hw hh) e he
    · rw [if_neg hc] at he
      exact hl e he
  unfold detect_elements_heuristic
  refine key _ ?_
  intro x hx
  refine merge_overlapping_pres _ _ _ hmerge _ ?_ x hx
  intro z hz
  exact contours_to_elements_bboxValid _ w h _ true hw1 hh1 z
    (remove_duplicate_subset _ _ _ hz)

/-- C4 (counterexample): on a tiny 9 x 8 image whose top-right grid cell has
high variance, the grid fallback produces a box with `x + w = 11/9 > 1`:
the `x1_shrunk + 5` lower bound on the shrunken right edge pushes the box
past the image border, violating the claimed invariant. -/
theorem grid_fallback_box_exceeds_unit :
    ∃ e ∈ grid_fallback_detection
        (fun r c => if r = 0 ∧ c = 2 then some 127 else some 0) 9 8,
      1 < e.bbox.x + e.bbox.w := by
  have hcell : gridCellElement
      (fun r c => if r = 0 ∧ c = 2 then some 127 else some 0) 9 8
      (gridRows 8) (gridCols 9) 0 2 =
      some ⟨⟨2/3, 0, 5/9, 5/8⟩, 25, 1, none⟩ := by
    norm_num [gridCellElement, gridRows, gridCols, min_def, max_def]
  have hmem : (⟨⟨2/3, 0, 5/9, 5/8⟩, 25, 1, none⟩ : Element) ∈
      (List.range (gridRows 8)).flatMap fun r =>
        (List.range (gridCols 9)).filterMap fun c =>
          gridCellElement
            (fun r c => if r = 0 ∧ c = 2 then some 127 else some 0) 9 8
            (gridRows 8) (gridCols 9) r c := by
    refine List.mem_flatMap.mpr ⟨0, ?_, List.mem_filterMap.mpr ⟨2, ?_, hcell⟩⟩
    · decide
    · decide
  refine ⟨⟨⟨2/3, 0, 5/9, 5/8⟩, 25, 1, none⟩, ?_, by norm_num⟩
  unfold grid_fallback_detection
  rw [if_neg (List.ne_nil_of_mem hmem)]
  exact hmem

/-- C4 (amended): for every input image whose dimensions are at least
18 x 24 pixels (so that every fallback grid cell is wide and tall enough
for the 5 px minimum cell size), every `BoundingBox` produced by element
detection — from the contour path, the grid fallback, the YOLO conversion,
and after deduplication and merging — satisfies `0 ≤ x, y`, `x + w ≤ 1`,
`y + h ≤ 1` and `w, h > 0`.  On smaller images the grid fallback can emit
boxes with `x + w > 1` or `y + h > 1`. -/
theorem detect_elements_improved_bboxValid (o : DetectOracle)
    (cfg : DetectConfig) (w h : ℕ) (hw : 18 ≤ w) (hh : 24 ≤ h) :
    ∀ e ∈ detect_elements_improved o cfg w h, bboxValid e := by
  have hw1 : 1 ≤ w := by omega
  have hh1 : 1 ≤ h := by omega
  have hW0 : (0 : ℚ) < w := by exact_mod_cast Nat.lt_of_lt_of_le Nat.zero_lt_one hw1
  have hH0 : (0 : ℚ) < h := by exact_mod_cast Nat.lt_of_lt_of_le Nat.zero_lt_one hh1
  have hmerge : ∀ a b, bboxValid a → bboxValid b →
      bboxValid (mergeElems a b (w : ℚ) (h : ℚ)) :=
    fun a b ha hb => mergeElems_bboxValid hW0 hH0 ha hb
  have hfallb : ∀ e ∈ (if cfg.fallback_to_heuristic then
      detect_elements_heuristic o.heur w h else []), bboxValid e := by
    split
    · exact detect_heuristic_bboxValid o.heur w h hw hh
    · simp
  unfold detect_elements_improved
  by_cases hg : cfg.use_yolo ∧ o.yoloImportOk ∧ o.yoloAvailable
  · rw [if_pos hg]
    set y := if (detect_elements_yolo o.yoloAvailable o.err1 o.raw1 w h).length <
        MIN_ELEMENTS_TARGET then
        merge_and_dedupe (detect_elements_yolo o.yoloAvailable o.err1 o.raw1 w h)
          (detect_elements_yolo o.yoloAvailable o.err2 o.raw2 w h) w h
      else detect_elements_yolo o.yoloAvailable o.err1 o.raw1 w h with hy
    have hyv : ∀ x ∈ y, bboxValid x := by
      rw [hy]
      split
      · exact merge_and_dedupe_pres _ _ _ hmerge _ _
          (detect_elements_yolo_bboxValid _ _ _ w h hw1 hh1)
          (detect_elements_yolo_bboxValid _ _ _ w h hw1 hh1)
      · exact detect_elements_yolo_bboxValid _ _ _ w h hw1 hh1
    have hconv : ∀ x ∈ y.map (fun e =>
        { e with class_name := some (e.class_name.getD "unknown") }),
        bboxValid x := by
      intro x hx
      obtain ⟨d, hd, rfl⟩ := List.mem_map.mp hx
      exact hyv d hd
    by_cases hynil : y = []
    · rw [if_pos hynil]
      exact hfallb
    · rw [if_neg hynil]
      by_cases hc : MIN_ELEMENTS_TARGET ≤ (y.map fun e =>
          { e with class_name := some (e.class_name.getD "unknown") }).length ∨
          ¬cfg.fallback_to_heuristic
      · rw [if_pos hc]
        exact hconv
      · rw [if_neg hc]
        exact merge_and_dedupe_pres _ _ _ hmerge _ _ hconv
          (detect_heuristic_bboxValid o.heur w h hw hh)
  · rw [if_neg hg]
    exact hfallb

/-- Witness for C4 at an 18 x 24 image with the default flags and trivial
oracles. -/
theorem detect_elements_improved_bboxValid_witness :
    (18 ≤ 18 ∧ 24 ≤ 24) ∧
      ∀ e ∈ detect_elements_improved
          ⟨false, false, false, false, [], [], ⟨[], fun _ _ => none⟩⟩
          ⟨true, 3/20, true⟩ 18 24, bboxValid e :=
  ⟨⟨by norm_num, by norm_num⟩,
    detect_elements_improved_bboxValid _ _ 18 24 (by norm_num) (by norm_num)⟩

/-! ## Constant-mask lemmas and C6 / C7 -/

theorem window5_const {m : Mask} {c : ℕ} (hm : ∀ i j, m.px i j = c) (i j : ℕ) :
    ∀ x ∈ window5 m i j, x = c := by
  intro x hx
  simp only [window5, List.mem_flatMap, List.mem_map] at hx
  obtain ⟨a, _, b, _, rfl⟩ := hx
  exact hm _ _

theorem window3_const {m : Mask} {c : ℕ} (hm : ∀ i j, m.px i j = c) (i j : ℕ) :
    ∀ x ∈ window3 m i j, x = c := by
  intro x hx
  simp only [window3, List.mem_flatMap, List.mem_map] at hx
  obtain ⟨a, _, b, _, rfl⟩ := hx
  exact hm _ _

theorem window5_ne_nil (m : Mask) (i j : ℕ) : window5 m i j ≠ [] := by
  simp only [window5, ne_eq, List.flatMap_eq_nil_iff, List.mem_range,
    List.map_eq_nil_iff, List.range_eq_nil, not_forall]
  exact ⟨0, by norm_num, by norm_num⟩

theorem window3_ne_nil (m : Mask) (i j : ℕ) : window3 m i j ≠ [] := by
  simp only [window3, ne_eq, List.flatMap_eq_nil_iff, List.mem_range,
    List.map_eq_nil_iff, List.range_eq_nil, not_forall]
  exact ⟨0, by norm_num, by norm_num⟩

theorem listMedian_const {l : List ℕ} {c : ℕ} (hc : ∀ x ∈ l, x = c)
    (hne : l ≠ []) : listMedian l = c := by
  unfold listMedian
  have hlen : (List.insertionSort (fun a b : ℕ => a ≤ b) l).length = l.length :=
    List.length_insertionSort _ l
  have hpos : 0 < l.length := List.length_pos.mpr hne
  have hlt : l.length / 2 < (List.insertionSort (fun a b : ℕ => a ≤ b) l).length := by
    omega
  rw [List.getD_eq_getElem?_getD, List.getElem?_eq_getElem hlt]
  exact hc _ ((List.mem_insertionSort _).mp (List.getElem_mem hlt))

theorem foldl_min_const {c : ℕ} :
    ∀ (vs : List ℕ) (v : ℕ), v = c → (∀ x ∈ vs, x = c) → vs.foldl min v = c := by
  intro vs
  induction vs with
  | nil => intro v hv _; exact hv
  | cons a t ih =>
    intro v hv hall
    simp only [List.foldl_cons]
    refine ih _ ?_ (fun x hx => hall x (List.mem_cons_of_mem _ hx))
    rw [hv, hall a (List.mem_cons_self _ _), min_self]

theorem foldl_max_const {c : ℕ} :
    ∀ (vs : List ℕ) (v : ℕ), v = c → (∀ x ∈ vs, x = c) → vs.foldl max v = c := by
  intro vs
  induction vs with
  | nil => intro v hv _; exact hv
  | cons a t ih =>
    intro v hv hall
    simp only [List.foldl_cons]
    refine ih _ ?_ (fun x hx => hall x (List.mem_cons_of_mem _ hx))
    rw [hv, hall a (List.mem_cons_self _ _), max_self]

theorem medianBlur5_const {m : Mask} {c : ℕ} (hm : ∀ i j, m.px i j = c) :
    ∀ i j, (medianBlur5 m).px i j = c := by
  intro i j
  dsimp only [medianBlur5]
  exact listMedian_const (window5_const hm i j) (window5_ne_nil m i j)

theorem erode3_const {m : Mask} {c : ℕ} (hm : ∀ i j, m.px i j = c) :
    ∀ i j, (erode3 m).px i j = c := by
  intro i j
  show (match window3 m i j with
    | [] => 0
    | v :: vs => vs.foldl min v) = c
  rcases hwin : window3 m i j with _ | ⟨a, t⟩
  · exact absurd hwin (window3_ne_nil m i j)
  · have hall := window3_const hm i j
    rw [hwin] at hall
    exact foldl_min_const t a (hall a (List.mem_cons_self _ _))
      (fun x hx => hall x (List.mem_cons_of_mem _ hx))

theorem dilate3_const {m : Mask} {c : ℕ} (hm : ∀ i j, m.px i j = c) :
    ∀ i j, (dilate3 m).px i j = c := by
  intro i j
  show (window3 m i j).foldl max 0 = c
  rcases hwin : window3 m i j with _ | ⟨a, t⟩
  · exact absurd hwin (window3_ne_nil m i j)
  · have hall := window3_const hm i j
    rw [hwin] at hall
    simp only [List.foldl_cons]
    refine foldl_max_const t _ ?_ (fun x hx => hall x (List.mem_cons_of_mem _ hx))
    rw [hall a (List.mem_cons_self _ _), Nat.zero_max]

theorem smoothMask_const {m : Mask} {c : ℕ} (hm : ∀ i j, m.px i j = c) :
    ∀ i j, (smoothMask m).px i j = c :=
  dilate3_const (dilate3_const (erode3_const (medianBlur5_const hm)))

theorem countNonzero_of_zero {px : ℕ → ℕ → ℕ} (hpx : ∀ i j, px i j = 0)
    (y0 y1 x0 x1 : ℕ) : countNonzero px y0 y1 x0 x1 = 0 := by
  unfold countNonzero
  rw [List.countP_eq_zero]
  intro a ha
  simp only [List.mem_flatMap, List.mem_map] at ha
  obtain ⟨i, _, j, _, rfl⟩ := ha
  simp [hpx]

theorem countNonzero_of_const {px : ℕ → ℕ → ℕ} {c : ℕ}
    (hpx : ∀ i j, px i j = c) (hc : c ≠ 0) (y0 y1 x0 x1 : ℕ) :
    countNonzero px y0 y1 x0 x1 = (y1 - y0) * (x1 - x0) := by
  unfold countNonzero
  rw [show (y1 - y0) * (x1 - x0) =
      ((List.range (y1 - y0)).flatMap fun i =>
        (List.range (x1 - x0)).map fun j => px (y0 + i) (x0 + j)).length by
    rw [List.length_flatMap]
    simp only [Function.comp_def, List.length_map, List.length_range]
    rw [List.map_const', List.sum_replicate, List.length_range, smul_eq_mul]]
  rw [List.countP_eq_length]
  intro a ha
  simp only [List.mem_flatMap, List.mem_map] at ha
  obtain ⟨i, _, j, _, rfl⟩ := ha
  simp [hpx, hc]

/-- C6 (per element): on an everywhere-zero smoothed mask every element's
status is `ok`, as long as the effective changed threshold is positive. -/
theorem diagnoseOne_blank_ok (w h : ℕ) (px : ℕ → ℕ → ℕ)
    (hpx : ∀ i j, px i j = 0) (pad : ℕ)
    (missing_threshold changed_threshold min_ratio : ℚ) (min_pixels : ℕ)
    (hpos : 0 < max changed_threshold min_ratio) (e : DiagElement) :
    (diagnoseOne w h px pad missing_threshold changed_threshold min_ratio
      min_pixels e).status = "ok" := by
  unfold diagnoseOne
  dsimp only
  rw [countNonzero_of_zero hpx]
  simp only [Nat.cast_zero, zero_div]
  split
  · rename_i hcond
    exfalso
    have h1 := hcond.1
    have h2 := le_max_right missing_threshold (max changed_threshold min_ratio + 1/5)
    linarith
  · split
    · rename_i hcond
      exfalso
      have h1 := hcond.1
      linarith
    · rfl

/-- C6: `analyze_elements_diff` on a completely blank (all-zero) diff mask
yields status `ok` for every element of the test case, and the `missing`
and `shifted` counters are both zero — for any element set, any mask
dimensions and any thresholds whose effective changed threshold
`max(changed_threshold, min_ratio)` is positive (as with the defaults
0.3 / 0.04). -/
theorem analyze_blank_all_ok (elements : List DiagElement) (m : Mask)
    (hm : ∀ i j, m.px i j = 0)
    (missing_threshold changed_threshold min_ratio : ℚ) (min_pixels : ℕ)
    (max_shift_px : ℤ) (hpos : 0 < max changed_threshold min_ratio) :
    (∀ info ∈ (analyze_elements_diff elements (some m) missing_threshold
        changed_threshold min_ratio min_pixels max_shift_px).elements,
      info.status = "ok") ∧
    (analyze_elements_diff elements (some m) missing_threshold
        changed_threshold min_ratio min_pixels max_shift_px).missing = 0 ∧
    (analyze_elements_diff elements (some m) missing_threshold
        changed_threshold min_ratio min_pixels max_shift_px).shifted = 0 := by
  have hsm : ∀ i j, (smoothMask m).px i j = 0 := smoothMask_const hm
  have hstat : ∀ e : DiagElement,
      (diagnoseOne m.w m.h (smoothMask m).px ((max 0 max_shift_px).toNat)
        missing_threshold changed_threshold min_ratio min_pixels e).status =
        "ok" :=
    fun e => diagnoseOne_blank_ok m.w m.h _ hsm _ _ _ _ _ hpos e
  refine ⟨?_, ?_, ?_⟩
  · intro info hinfo
    obtain ⟨e, _, rfl⟩ := List.mem_map.mp hinfo
    exact hstat e
  · refine List.countP_eq_zero.mpr ?_
    intro info hinfo
    obtain ⟨e, _, rfl⟩ := List.mem_map.mp hinfo
    simp only [hstat e]
    decide
  · refine List.countP_eq_zero.mpr ?_
    intro info hinfo
    obtain ⟨e, _, rfl⟩ := List.mem_map.mp hinfo
    simp only [hstat e]
    decide

theorem elemGeom (w h : ℕ) (b : Option BBox) (hw : 1 ≤ w) (hh : 1 ≤ h) :
    elemX w b + elemW w b ≤ w ∧ 1 ≤ elemW w b ∧
    elemY h b + elemH h b ≤ h ∧ 1 ≤ elemH h b := by
  unfold elemW elemX elemH elemY
  generalize pyInt ((Option.map BBox.x b).getD 0 * ↑w) = tx
  generalize pyInt ((Option.map BBox.w b).getD 0 * ↑w) = tw
  generalize pyInt ((Option.map BBox.y b).getD 0 * ↑h) = ty
  generalize pyInt ((Option.map BBox.h b).getD 0 * ↑h) = th
  omega

theorem pyInt_eq_floor {q : ℚ} (h : 0 ≤ q) : pyInt q = ⌊q⌋ := by
  rw [Rat.floor_def]
  exact Int.tdiv_eq_ediv (Rat.num_nonneg.mpr h) (Int.ofNat_nonneg _)

theorem pyInt_toNat_le {q : ℚ} {n : ℕ} (h0 : 0 ≤ q) (h : q ≤ n) :
    (pyInt q).toNat ≤ n := by
  rw [pyInt_eq_floor h0]
  have h1 : ⌊q⌋ ≤ (n : ℤ) := by
    rw [show ((n : ℤ) : ℤ) = ⌊(n : ℚ)⌋ by rw [Int.floor_natCast]]
    exact Int.floor_le_floor h
  omega

/-- C7 (per element): on an everywhere-255 smoothed mask, an element whose
clamped pixel box reaches the missing floor (which, with the defaults,
means `width * height ≥ 120`) is diagnosed `missing`: the padded region is
fully changed (ratio 1 ≥ 0.7) and the diff-pixel count equals the region
area, which dominates `max(min_pixels, 15% of the box area)`. -/
theorem diagnoseOne_full_missing (w h : ℕ) (px : ℕ → ℕ → ℕ)
    (hpx : ∀ i j, px i j = 255) (hw : 1 ≤ w) (hh : 1 ≤ h) (e : DiagElement)
    (harea : 120 ≤ elemW w e.bbox * elemH h e.bbox) :
    (diagnoseOne w h px 0 (7/10) (3/10) (1/25) 120 e).status = "missing" := by
  obtain ⟨hxw, hw1, hyh, hh1⟩ := elemGeom w h e.bbox hw hh
  have hx1 : min w (elemX w e.bbox + elemW w e.bbox + 0) =
      elemX w e.bbox + elemW w e.bbox := by omega
  have hy1 : min h (elemY h e.bbox + elemH h e.bbox + 0) =
      elemY h e.bbox + elemH h e.bbox := by omega
  have hone : 1 ≤ elemH h e.bbox * elemW w e.bbox := Nat.mul_le_mul hh1 hw1
  unfold diagnoseOne
  dsimp only
  rw [countNonzero_of_const hpx (by norm_num), hx1, hy1]
  simp only [Nat.sub_zero, Nat.add_sub_cancel_left]
  rw [Nat.max_eq_right hone]
  have hr : ((elemH h e.bbox * elemW w e.bbox : ℕ) : ℚ) /
      ((elemH h e.bbox * elemW w e.bbox : ℕ) : ℚ) = 1 :=
    div_self (by
      have : 0 < elemH h e.bbox * elemW w e.bbox := by omega
      exact_mod_cast Nat.pos_iff_ne_zero.mp this)
  rw [hr]
  have hfloor : (pyInt (((elemW w e.bbox * elemH h e.bbox : ℕ) : ℚ) *
      (3/20))).toNat ≤ elemW w e.bbox * elemH h e.bbox := by
    refine pyInt_toNat_le (by positivity) ?_
    have hnn : (0 : ℚ) ≤ ((elemW w e.bbox * elemH h e.bbox : ℕ) : ℚ) :=
      Nat.cast_nonneg _
    linarith
  rw [if_pos]
  constructor
  · norm_num [max_def]
  · rw [Nat.mul_comm (elemH h e.bbox) (elemW w e.bbox)]
    exact Nat.max_le.mpr ⟨harea, hfloor⟩

/-- C7: `analyze_elements_diff` with a diff mask that is 100 percent
nonzero (every pixel 255) and the default thresholds yields status
`missing` for every element whose clamped pixel box area reaches the
missing floor, i.e. is at least `min_pixels = 120` (the floor
`max(120, 15% of the box area)` then never exceeds the box area). -/
theorem analyze_full_all_missing (elements : List DiagElement) (m : Mask)
    (hm : ∀ i j, m.px i j = 255) (hw : 1 ≤ m.w) (hh : 1 ≤ m.h) :
    ∀ info ∈ (analyze_elements_diff elements (some m) (7/10) (3/10) (1/25)
        120 0).elements,
      120 ≤ elemW m.w info.bbox * elemH m.h info.bbox →
      info.status = "missing" := by
  have hsm : ∀ i j, (smoothMask m).px i j = 255 := smoothMask_const hm
  intro info hinfo harea
  obtain ⟨e, _, rfl⟩ := List.mem_map.mp hinfo
  have hb : (diagnoseOne m.w m.h (smoothMask m).px ((max 0 (0 : ℤ)).toNat)
      (7/10) (3/10) (1/25) 120 e).bbox = e.bbox := rfl
  rw [hb] at harea
  exact diagnoseOne_full_missing m.w m.h _ hsm hw hh e harea

/-- Witness for C6: one full-screen element on a blank 10 x 10 mask with
the default thresholds. -/
theorem analyze_blank_all_ok_witness :
    (∀ info ∈ (analyze_elements_diff [⟨1, "e", "button", some ⟨0, 0, 1, 1⟩⟩]
        (some ⟨10, 10, fun _ _ => 0⟩) (7/10) (3/10) (1/25) 120 0).elements,
      info.status = "ok") ∧
    (analyze_elements_diff [⟨1, "e", "button", some ⟨0, 0, 1, 1⟩⟩]
        (some ⟨10, 10, fun _ _ => 0⟩) (7/10) (3/10) (1/25) 120 0).missing = 0 ∧
    (analyze_elements_diff [⟨1, "e", "button", some ⟨0, 0, 1, 1⟩⟩]
        (some ⟨10, 10, fun _ _ => 0⟩) (7/10) (3/10) (1/25) 120 0).shifted = 0 :=
  analyze_blank_all_ok _ _ (fun _ _ => rfl) _ _ _ _ _ (by norm_num)

/-- Witness for C7: a full-screen element on an all-255 10 x 12 mask. -/
theorem analyze_full_all_missing_witness :
    (1 ≤ 12 ∧ 1 ≤ 10) ∧
      ∀ info ∈ (analyze_elements_diff [⟨1, "e", "button", some ⟨0, 0, 1, 1⟩⟩]
          (some ⟨10, 12, fun _ _ => 255⟩) (7/10) (3/10) (1/25) 120 0).elements,
        120 ≤ elemW 12 info.bbox * elemH 10 info.bbox →
        info.status = "missing" :=
  ⟨⟨by norm_num, by norm_num⟩,
    analyze_full_all_missing _ _ (fun _ _ => rfl) (by norm_num) (by norm_num)⟩

/-! ## Coverage of the union-merge (C10) -/

theorem covers_refl (W H : ℚ) (e : Element) : covers W H e e :=
  ⟨le_refl _, le_refl _, le_refl _, le_refl _, le_refl _⟩

theorem covers_trans (W H : ℚ) {a b c : Element}
    (hab : covers W H a b) (hbc : covers W H b c) : covers W H a c :=
  ⟨hab.1.trans hbc.1, hab.2.1.trans hbc.2.1, hbc.2.2.1.trans hab.2.2.1,
   hbc.2.2.2.1.trans hab.2.2.2.1, hbc.2.2.2.2.trans hab.2.2.2.2⟩

theorem mergeElems_absCorners (b o : Element) (W H : ℚ) (hW : W ≠ 0)
    (hH : H ≠ 0) :
    (mergeElems b o W H).bbox.x * W = min (b.bbox.x * W) (o.bbox.x * W) ∧
    (mergeElems b o W H).bbox.y * H = min (b.bbox.y * H) (o.bbox.y * H) ∧
    (mergeElems b o W H).bbox.x * W + (mergeElems b o W H).bbox.w * W =
      max (b.bbox.x * W + b.bbox.w * W) (o.bbox.x * W + o.bbox.w * W) ∧
    (mergeElems b o W H).bbox.y * H + (mergeElems b o W H).bbox.h * H =
      max (b.bbox.y * H + b.bbox.h * H) (o.bbox.y * H + o.bbox.h * H) := by
  simp only [mergeElems, bbox_abs]
  refine ⟨div_mul_cancel₀ _ hW, div_mul_cancel₀ _ hH, ?_, ?_⟩
  · rw [div_mul_cancel₀ _ hW, div_mul_cancel₀ _ hW]; ring
  · rw [div_mul_cancel₀ _ hH, div_mul_cancel₀ _ hH]; ring

theorem mergeElems_covers_left (b o : Element) (W H : ℚ) (hW : W ≠ 0)
    (hH : H ≠ 0) : covers W H (mergeElems b o W H) b := by
  obtain ⟨h1, h2, h3, h4⟩ := mergeElems_absCorners b o W H hW hH
  refine ⟨?_, ?_, ?_, ?_, ?_⟩
  · rw [h1]; exact min_le_left _ _
  · rw [h2]; exact min_le_left _ _
  · rw [h3]; exact le_max_left _ _
  · rw [h4]; exact le_max_left _ _
  · exact le_max_left _ _

theorem mergeElems_covers_right (b o : Element) (W H : ℚ) (hW : W ≠ 0)
    (hH : H ≠ 0) : covers W H (mergeElems b o W H) o := by
  obtain ⟨h1, h2, h3, h4⟩ := mergeElems_absCorners b o W H hW hH
  refine ⟨?_, ?_, ?_, ?_, ?_⟩
  · rw [h1]; exact min_le_right _ _
  · rw [h2]; exact min_le_right _ _
  · rw [h3]; exact le_max_right _ _
  · rw [h4]; exact le_max_right _ _
  · exact le_max_right _ _

theorem absorb_covers (W H : ℚ) (hW : W ≠ 0) (hH : H ≠ 0) (b : Element)
    (l : List Element) :
    covers W H (absorb W H b l).1 b ∧
      ∀ e ∈ l, e ∈ (absorb W H b l).2.1 ∨ covers W H (absorb W H b l).1 e := by
  induction l generalizing b with
  | nil => exact ⟨covers_refl W H b, by simp⟩
  | cons e rest ih =>
    by_cases hq : mergeQualifies b e W H
    · simp only [absorb, hq, if_true]
      obtain ⟨ihc, ihm⟩ := ih (mergeElems b e W H)
      refine ⟨covers_trans W H ihc (mergeElems_covers_left b e W H hW hH), ?_⟩
      intro x hx
      rcases List.mem_cons.mp hx with rfl | hx
      · exact Or.inr (covers_trans W H ihc (mergeElems_covers_right b x W H hW hH))
      · exact ihm x hx
    · simp only [absorb, hq, if_false]
      obtain ⟨ihc, ihm⟩ := ih b
      refine ⟨ihc, ?_⟩
      intro x hx
      rcases List.mem_cons.mp hx with rfl | hx
      · exact Or.inl (List.mem_cons_self _ _)
      · rcases ihm x hx with hmem | hcov
        · exact Or.inl (List.mem_cons_of_mem _ hmem)
        · exact Or.inr hcov

theorem onePassF_covers (W H : ℚ) (hW : W ≠ 0) (hH : H ≠ 0) (fuel : ℕ)
    (l : List Element) :
    ∀ e ∈ l, ∃ o ∈ (onePassF W H fuel l).1, covers W H o e := by
  induction fuel generalizing l with
  | zero =>
    cases l with
    | nil => simp
    | cons e rest =>
      intro x hx
      exact ⟨x, by simpa [onePassF] using hx, covers_refl W H x⟩
  | succ f ih =>
    cases l with
    | nil => simp
    | cons e rest =>
      intro x hx
      obtain ⟨hcb, hcm⟩ := absorb_covers W H hW hH e rest
      rcases List.mem_cons.mp hx with rfl | hx
      · exact ⟨(absorb W H x rest).1, by simp [onePassF], hcb⟩
      · rcases hcm x hx with hmem | hcov
        · obtain ⟨o, ho, hco⟩ := ih (absorb W H e rest).2.1 x hmem
          exact ⟨o, by simp only [onePassF]; exact List.mem_cons_of_mem _ ho, hco⟩
        · exact ⟨(absorb W H e rest).1, by simp [onePassF], hcov⟩

theorem mergeLoopF_covers (W H : ℚ) (hW : W ≠ 0) (hH : H ≠ 0) (fuel : ℕ)
    (l : List Element) :
    ∀ e ∈ l, ∃ o ∈ mergeLoopF W H fuel l, covers W H o e := by
  induction fuel generalizing l with
  | zero => intro x hx; exact ⟨x, hx, covers_refl W H x⟩
  | succ f ih =>
    intro x hx
    obtain ⟨o1, ho1, hc1⟩ := onePassF_covers W H hW hH l.length l x hx
    by_cases hch : (onePass W H l).2
    · obtain ⟨o2, ho2, hc2⟩ := ih (onePass W H l).1 o1 ho1
      exact ⟨o2, by simp only [mergeLoopF, hch, if_true]; exact ho2,
        covers_trans W H hc2 hc1⟩
    · exact ⟨o1, by simp only [mergeLoopF, hch, if_false]; exact ho1, hc1⟩

/-- C10: the union-merge never loses coverage: every input element's box
region is contained in the box of some output element of
`_merge_overlapping_elements`, whose confidence is at least the input's. -/
theorem merge_overlapping_covers (l : List Element) (W H : ℚ)
    (hW : 0 < W) (hH : 0 < H) :
    ∀ e ∈ l, ∃ o ∈ merge_overlapping_elements l W H, covers W H o e := by
  intro x hx
  unfold merge_overlapping_elements
  by_cases hlen : l.length < 2
  · simp only [hlen, if_true]
    exact ⟨x, hx, covers_refl W H x⟩
  · simp only [hlen, if_false]
    exact mergeLoopF_covers W H (ne_of_gt hW) (ne_of_gt hH) l.length l x hx

/-! ## C3 -/

/-- C3 (counterexample): `align_image` can propagate an exception.  The
`try/except` covers only the grayscale conversion; if the ORB
`detectAndCompute` call raises, the exception reaches the caller instead
of the promised `(candidate, False)` fallback. -/
theorem align_image_raises :
    align_image (37 : ℤ)
        { cvtErr := false, detectErr := true, kp1 := 10, kp2 := 10,
          des1 := true, des2 := true, matchErr := false, matchCount := 10,
          homographyErr := false, homographySome := true, warpErr := false,
          warped := 0 } = Except.error () := rfl

/-- C3 (amended): when the OpenCV primitives outside the `try` block do not
themselves raise, `align_image` never propagates an exception: grayscale
conversion failure, insufficient keypoints or matches and a `None`
homography all return the unmodified candidate with
`transform_applied = False`, and otherwise the warped image is returned
with `True`. -/
theorem align_image_no_raise {α : Type} (a : α) (o : AlignOracle α)
    (h1 : o.detectErr = false) (h2 : o.matchErr = false)
    (h3 : o.homographyErr = false) (h4 : o.warpErr = false) :
    align_image a o = Except.ok (a, false) ∨
      align_image a o = Except.ok (o.warped, true) := by
  unfold align_image
  split_ifs <;> simp_all

/-- Witness for C3 at a concrete oracle with no primitive failures. -/
theorem align_image_no_raise_witness :
    align_image (5 : ℤ)
        { cvtErr := false, detectErr := false, kp1 := 10, kp2 := 10,
          des1 := true, des2 := true, matchErr := false, matchCount := 10,
          homographyErr := false, homographySome := true, warpErr := false,
          warped := (9 : ℤ) } = Except.ok ((5 : ℤ), false) ∨
      align_image (5 : ℤ)
        { cvtErr := false, detectErr := false, kp1 := 10, kp2 := 10,
          des1 := true, des2 := true, matchErr := false, matchCount := 10,
          homographyErr := false, homographySome := true, warpErr := false,
          warped := (9 : ℤ) } = Except.ok ((9 : ℤ), true) :=
  align_image_no_raise 5 _ rfl rfl rfl rfl

/-! ## C8 -/

/-- C8 (counterexample): a detector-supplied class `'button'` with
confidence `0.6 ≥ 0.5` on a wide, short box (200 x 10 px on a 1000 x 500
image) is NOT stored as the mapped label `button`: the final shape
correction of `tasks.py` (line 126) rewrites it to `input`. -/
theorem classify_overrides_detector_label :
    classifyDetectedElement 1000 500 false ("unknown", 0) ("unknown", 3/10)
        ⟨⟨0, 0, 1/5, 1/50⟩, 2000, 3/5, some "button"⟩ = ("input", 3/4) ∧
      yolo_to_ui_type "button" = some "button" := by
  refine ⟨?_, by decide⟩
  have hW : elemAbsW 1000 ⟨⟨0, 0, 1/5, 1/50⟩, 2000, 3/5, some "button"⟩ = 200 := by
    norm_num [elemAbsW, pyInt]; decide
  have hH : elemAbsH 500 ⟨⟨0, 0, 1/5, 1/50⟩, 2000, 3/5, some "button"⟩ = 10 := by
    norm_num [elemAbsH, pyInt]; decide
  have hA : elemAspect 1000 500 ⟨⟨0, 0, 1/5, 1/50⟩, 2000, 3/5, some "button"⟩ = 20 := by
    rw [elemAspect, hW, hH]; norm_num
  have hR : elemRelArea 1000 500
      ⟨⟨0, 0, 1/5, 1/50⟩, 2000, 3/5, some "button"⟩ = 1/250 := by
    rw [elemRelArea, hW, hH]; norm_num
  have hmap : yolo_to_ui_type (asciiLower "button") = some "button" := by decide
  have hne : ("button" : String) ≠ "unknown" := by decide
  have hiu : ("input" : String) ≠ "unknown" := by decide
  have hil : ("input" : String) ≠ "label" := by decide
  norm_num [classifyDetectedElement, hA, hR, hH, hmap, hne, hiu, hil,
    shapeCorrections, max_def, min_def]

theorem yolo_to_ui_type_ne_unknown {s m : String}
    (h : yolo_to_ui_type s = some m) : m ≠ "unknown" := by
  unfold yolo_to_ui_type at h
  split_ifs at h <;> simp_all <;> subst h <;> decide

/-- C8 (amended): when the detecting source supplies a class label with
confidence at least `0.5` that maps through the fixed vocabulary, the
classification accepts the mapped label without consulting the ML or
heuristic classifiers (the result does not depend on `mlTrained`,
`mlPred` or `heur`); the final shape-correction passes may however still
reclassify it based on the box geometry. -/
theorem classify_detector_label_accepted (w h : ℕ) (mlTrained : Bool)
    (mlPred heur : String × ℚ) (e : Element) (cn m : String)
    (hcn : e.class_name = some cn) (hne : cn ≠ "unknown")
    (hmap : yolo_to_ui_type (asciiLower cn) = some m)
    (hconf : 1/2 ≤ e.confidence) :
    classifyDetectedElement w h mlTrained mlPred heur e =
      shapeCorrections (elemAspect w h e) (elemRelArea w h e) (elemAbsH h e)
        (decide (elemRelArea w h e < 1/1000)) m e.confidence := by
  have hm := yolo_to_ui_type_ne_unknown hmap
  have hnotlt : ¬e.confidence < 1/2 := not_lt.mpr hconf
  have hnotlt2 : ¬e.confidence < (2⁻¹ : ℚ) := by rw [← one_div]; exact hnotlt
  unfold classifyDetectedElement
  rw [hcn]
  simp [hne, hmap, hm, hnotlt, hnotlt2]

/-- Witness for C8: the label `'text'` supplied at confidence `0.6` is
stored through the vocabulary as `label` (the shape corrections leave a
100 x 50 px box untouched). -/
theorem classify_detector_label_accepted_witness :
    classifyDetectedElement 1000 500 true ("image", 99/100) ("unknown", 3/10)
        ⟨⟨0, 0, 1/10, 1/10⟩, 5000, 3/5, some "text"⟩ =
      shapeCorrections
        (elemAspect 1000 500 ⟨⟨0, 0, 1/10, 1/10⟩, 5000, 3/5, some "text"⟩)
        (elemRelArea 1000 500 ⟨⟨0, 0, 1/10, 1/10⟩, 5000, 3/5, some "text"⟩)
        (elemAbsH 500 ⟨⟨0, 0, 1/10, 1/10⟩, 5000, 3/5, some "text"⟩)
        (decide (elemRelArea 1000 500
          ⟨⟨0, 0, 1/10, 1/10⟩, 5000, 3/5, some "text"⟩ < 1/1000))
        "label" (3/5) :=
  classify_detector_label_accepted 1000 500 true ("image", 99/100)
    ("unknown", 3/10) _ "text" "label" rfl (by decide) rfl (by norm_num)

/-- Witness for C10 at a concrete two-element list on a 10 x 10 image. -/
theorem merge_overlapping_covers_witness :
    ((0 : ℚ) < 10) ∧
      ∀ e ∈ [(⟨⟨0, 0, 1/2, 1/2⟩, 25, 1/2, none⟩ : Element),
             ⟨⟨1/10, 1/10, 1/2, 1/2⟩, 25, 2/3, none⟩],
        ∃ o ∈ merge_overlapping_elements
            [⟨⟨0, 0, 1/2, 1/2⟩, 25, 1/2, none⟩,
             ⟨⟨1/10, 1/10, 1/2, 1/2⟩, 25, 2/3, none⟩] 10 10,
          covers 10 10 o e :=
  ⟨by norm_num, merge_overlapping_covers _ 10 10 (by norm_num) (by norm_num)⟩

end AutotestUI
